import Mathlib

/-!
Verification of the FluxFeed stress-test / migration pipeline
(`scripts/stress-test.py`).

The script is shallowly embedded: the SQLite database is a record of row
lists, timestamps are integers (seconds; `datetime` arithmetic is linear in
seconds and `isoformat` is order-preserving, so nothing is lost for the
ordering claims), and Python's global `random` state is modelled by
explicit per-iteration draw records.  `random.randint lo hi` on a raw draw
`r` is `lo + r % (hi - lo + 1)`, which is exactly the contract (a value in
`[lo, hi]`) for every draw; `random.choice xs` is `xs[r % len xs]`.

`hashlib.sha384` is implemented in full (FIPS 180-4 SHA-384 over byte
lists), and `Path.read_text` is modelled as strict UTF-8 decoding followed
by universal-newline translation, exactly as Python's text mode performs
it (the regression relevant here: `read_text().encode()` is not the
identity on the raw file bytes when the file contains CRLF line endings,
and fails entirely on non-UTF-8 bytes).
-/
set_option maxRecDepth 100000

namespace StressTest

/-! ## Module constants (lines 23-60 of the script) -/
def NUM_FEEDS : Nat := 1000

def NUM_ARTICLES : Nat := 100000

def NUM_TAGS : Nat := 50

def LOREM_WORDS : List String := [
  "lorem", "ipsum", "dolor", "sit", "amet", "consectetur", "adipiscing",
  "elit", "sed", "do", "eiusmod", "tempor", "incididunt", "ut", "labore",
  "et", "dolore", "magna", "aliqua", "enim", "ad", "minim", "veniam",
  "quis", "nostrud", "exercitation", "ullamco", "laboris", "nisi",
  "aliquip", "ex", "ea", "commodo", "consequat", "duis", "aute", "irure",
  "in", "reprehenderit", "voluptate", "velit", "esse", "cillum", "fugiat",
  "nulla", "pariatur", "excepteur", "sint", "occaecat", "cupidatat", "non",
  "proident", "sunt", "culpa", "qui", "officia", "deserunt", "mollit",
  "anim", "id", "est", "laborum", "cras", "justo", "odio", "dapibus",
  "facilisis", "egestas", "felis", "donec", "pulvinar", "neque", "laoreet",
  "suspendisse", "interdum", "faucibus", "nisl", "tincidunt", "integer",
  "posuere", "erat", "ante", "venenatis", "morbi", "leo", "risus", "porta",
  "ac", "vestibulum", "at", "eros", "praesent", "blandit", "euismod"]

def TAG_NAMES : List String := [
  "tech", "news", "science", "politics", "sports", "entertainment",
  "gaming", "programming", "rust", "python", "javascript", "linux",
  "open-source", "security", "ai", "machine-learning", "data-science",
  "web-dev", "mobile", "devops", "cloud", "database", "networking",
  "hardware", "software", "tutorials", "reviews", "opinion", "analysis",
  "breaking", "daily", "weekly", "monthly", "featured", "popular",
  "trending", "archived", "important", "bookmarked", "read-later",
  "favorites", "must-read", "recommended", "community", "official",
  "indie", "mainstream", "international", "local"]

def COLORS : List String := [
  "#3B82F6", "#EF4444", "#10B981", "#F59E0B", "#8B5CF6",
  "#EC4899", "#06B6D4", "#84CC16", "#F97316", "#6366F1"]

def STYLES : List String := ["solid", "outline", "subtle"]

/-! ## Lexicographic order on filenames

`sorted(MIGRATIONS_DIR.glob("*.sql"))` sorts `Path` objects; for files of
one directory this is exactly Python string comparison of the filenames,
i.e. lexicographic comparison of their code-point sequences. -/
/-- Strict lexicographic order on code-point sequences (Python `<` on
`str`). -/
def lexLt : List Char → List Char → Bool
  | _, [] => false
  | [], _ :: _ => true
  | a :: as, b :: bs =>
      if a.toNat < b.toNat then true
      else if b.toNat < a.toNat then false
      else lexLt as bs

/-- Non-strict lexicographic order, as the negation of the reversed strict
order (how a comparison sort uses `<`). -/
def lexLe (a b : List Char) : Bool := !(lexLt b a)

/-! ## Migration filename parsing (line 110 of the script)

`re.match(r"(\d+)_(.+)\.sql", name)`: a nonempty maximal run of leading
digits, an underscore, then a greedy `(.+)\.sql` (the description is
everything before the last occurrence of `".sql"` that leaves a nonempty
description; `re.match` anchors at the start only).  `\d` is modelled as
the ASCII digits, the only ones occurring in this repository's
filenames. -/
/-- ASCII digit test (`\d` of the pattern, on the ASCII digits). -/
def isDigitChar (c : Char) : Bool := 48 ≤ c.toNat && c.toNat ≤ 57

/-- Numeric value of a digit string (`int(match.group(1))`). -/
def digitsVal (ds : List Char) : Nat :=
  ds.foldl (fun a c => a * 10 + (c.toNat - 48)) 0

/-- Greedy match of `(.+)\.sql` against a character list: the longest
nonempty stem that is followed by the four characters `.sql`. -/
def sqlStem : List Char → Option (List Char)
  | [] => none
  | c :: rest =>
    match sqlStem rest with
    | some s => some (c :: s)
    | none =>
      match rest with
      | '.' :: 's' :: 'q' :: 'l' :: _ => some [c]
      | _ => none

/-- `version, description` from a migration filename, or `none` when the
filename does not match `(\d+)_(.+)\.sql` (the script then raises
`ValueError`).  The description has underscores replaced by spaces
(line 115). -/
def parseMigrationName (name : String) : Option (Nat × String) :=
  let cs := name.data
  let ds := cs.takeWhile isDigitChar
  if ds.isEmpty then none
  else
    match cs.dropWhile isDigitChar with
    | '_' :: tail =>
      match sqlStem tail with
      | some stem =>
          some (digitsVal ds,
                (stem.map (fun c => if c = '_' then ' ' else c)).asString)
      | none => none
    | _ => none

/-! ## `Path.read_text` (line 106)

Python opens the file in text mode: the bytes are decoded as strict UTF-8
(the default locale encoding) — a `UnicodeDecodeError` aborts the run on
invalid bytes — and universal-newline translation replaces `"\r\n"` and
lone `"\r"` by `"\n"` in the decoded string.  `sql.encode()` (line 118)
re-encodes the translated string as UTF-8. -/
/-- Is the byte a UTF-8 continuation byte (`10xxxxxx`)? -/
def utf8Cont (b : Nat) : Bool := 128 ≤ b && b ≤ 191

/-- Decode one UTF-8 sequence from the front of a byte list: the code
point and the remaining bytes, or `none` on an invalid sequence
(overlong encodings and surrogates rejected, as CPython does). -/
def decodeUtf8Step : List Nat → Option (Nat × List Nat)
  | [] => none
  | b :: rest =>
    if b ≤ 127 then some (b, rest)
    else if 194 ≤ b ∧ b ≤ 223 then
      match rest with
      | c1 :: rest2 =>
        if utf8Cont c1 then some ((b - 192) * 64 + (c1 - 128), rest2)
        else none
      | [] => none
    else if 224 ≤ b ∧ b ≤ 239 then
      match rest with
      | c1 :: c2 :: rest2 =>
        if (if b = 224 then 160 ≤ c1 ∧ c1 ≤ 191
            else if b = 237 then 128 ≤ c1 ∧ c1 ≤ 159
            else utf8Cont c1 = true) ∧ utf8Cont c2 then
          some ((b - 224) * 4096 + (c1 - 128) * 64 + (c2 - 128), rest2)
        else none
      | _ => none
    else if 240 ≤ b ∧ b ≤ 244 then
      match rest with
      | c1 :: c2 :: c3 :: rest2 =>
        if (if b = 240 then 144 ≤ c1 ∧ c1 ≤ 191
            else if b = 244 then 128 ≤ c1 ∧ c1 ≤ 143
            else utf8Cont c1 = true) ∧ utf8Cont c2 ∧ utf8Cont c3 then
          some ((b - 240) * 262144 + (c1 - 128) * 4096
                + (c2 - 128) * 64 + (c3 - 128), rest2)
        else none
      | _ => none
    else none

/-- Iterate the decoding step; each step consumes at least one byte, so
fuel equal to the byte count always suffices. -/
def decodeUtf8Loop : Nat → List Nat → Option (List Nat)
  | _, [] => some []
  | 0, _ :: _ => none
  | fuel + 1, l =>
    match decodeUtf8Step l with
    | some (cp, rest) => (decodeUtf8Loop fuel rest).map (cp :: ·)
    | none => none

/-- Strict UTF-8 decoding of a byte list into code points, `none` on any
invalid byte sequence (a `UnicodeDecodeError`). -/
def decodeUtf8 (l : List Nat) : Option (List Nat) := decodeUtf8Loop l.length l

/-- UTF-8 encoding of one code point. -/
def encodeUtf8Char (c : Nat) : List Nat :=
  if c ≤ 127 then [c]
  else if c ≤ 2047 then [192 + c / 64, 128 + c % 64]
  else if c ≤ 65535 then [224 + c / 4096, 128 + c / 64 % 64, 128 + c % 64]
  else [240 + c / 262144, 128 + c / 4096 % 64, 128 + c / 64 % 64,
        128 + c % 64]

/-- UTF-8 encoding of a code-point list (`str.encode()`). -/
def encodeUtf8 (cps : List Nat) : List Nat := (cps.map encodeUtf8Char).flatten

/-- Universal-newline translation on the decoded code points: `"\r\n"`
and lone `"\r"` both become `"\n"`. -/
def translateNewlines : List Nat → List Nat
  | [] => []
  | [c] => if c = 13 then [10] else [c]
  | c :: d :: rest =>
    if c = 13 then
      if d = 10 then 10 :: translateNewlines rest
      else 10 :: translateNewlines (d :: rest)
    else c :: translateNewlines (d :: rest)

/-- The byte string that `migration_file.read_text()` followed by
`.encode()` produces, when decoding succeeds. -/
def readTextBytes (raw : List Nat) : Option (List Nat) :=
  (decodeUtf8 raw).map (fun cps => encodeUtf8 (translateNewlines cps))

/-! ## SHA-384 (`hashlib.sha384`, line 118)

FIPS 180-4 SHA-384: SHA-512 compression with a distinct initial value,
truncated to 384 bits.  64-bit words are naturals reduced mod `2 ^ 64`. -/
/-- Right rotation of a 64-bit word. -/
def rotr64 (n x : Nat) : Nat := ((x >>> n) ||| (x <<< (64 - n))) % 2 ^ 64

/-- Bitwise complement of a 64-bit word. -/
def not64 (x : Nat) : Nat := x ^^^ (2 ^ 64 - 1)

def sha2Ch (x y z : Nat) : Nat := (x &&& y) ^^^ (not64 x &&& z)

def sha2Maj (x y z : Nat) : Nat := (x &&& y) ^^^ (x &&& z) ^^^ (y &&& z)

def bigSigma0 (x : Nat) : Nat := rotr64 28 x ^^^ rotr64 34 x ^^^ rotr64 39 x

def bigSigma1 (x : Nat) : Nat := rotr64 14 x ^^^ rotr64 18 x ^^^ rotr64 41 x

def smallSigma0 (x : Nat) : Nat := rotr64 1 x ^^^ rotr64 8 x ^^^ (x >>> 7)

def smallSigma1 (x : Nat) : Nat := rotr64 19 x ^^^ rotr64 61 x ^^^ (x >>> 6)

/-- The eighty SHA-512 round constants. -/
def sha512K : List Nat := [
  4794697086780616226, 8158064640168781261, 13096744586834688815,
  16840607885511220156, 4131703408338449720, 6480981068601479193,
  10538285296894168987, 12329834152419229976, 15566598209576043074,
  1334009975649890238, 2608012711638119052, 6128411473006802146,
  8268148722764581231, 9286055187155687089, 11230858885718282805,
  13951009754708518548, 16472876342353939154, 17275323862435702243,
  1135362057144423861, 2597628984639134821, 3308224258029322869,
  5365058923640841347, 6679025012923562964, 8573033837759648693,
  10970295158949994411, 12119686244451234320, 12683024718118986047,
  13788192230050041572, 14330467153632333762, 15395433587784984357,
  489312712824947311, 1452737877330783856, 2861767655752347644,
  3322285676063803686, 5560940570517711597, 5996557281743188959,
  7280758554555802590, 8532644243296465576, 9350256976987008742,
  10552545826968843579, 11727347734174303076, 12113106623233404929,
  14000437183269869457, 14369950271660146224, 15101387698204529176,
  15463397548674623760, 17586052441742319658, 1182934255886127544,
  1847814050463011016, 2177327727835720531, 2830643537854262169,
  3796741975233480872, 4115178125766777443, 5681478168544905931,
  6601373596472566643, 7507060721942968483, 8399075790359081724,
  8693463985226723168, 9568029438360202098, 10144078919501101548,
  10430055236837252648, 11840083180663258601, 13761210420658862357,
  14299343276471374635, 14566680578165727644, 15097957966210449927,
  16922976911328602910, 17689382322260857208, 500013540394364858,
  748580250866718886, 1242879168328830382, 1977374033974150939,
  2944078676154940804, 3659926193048069267, 4368137639120453308,
  4836135668995329356, 5532061633213252278, 6448918945643986474,
  6902733635092675308, 7801388544844847127]

/-- SHA-384 initial hash value (eight 64-bit words). -/
def sha384IV : List Nat := [
  14680500436340154072, 7105036623409894663, 10473403895298186519,
  1526699215303891257, 7436329637833083697, 10282925794625328401,
  15784041429090275239, 5167115440072839076]

/-- Big-endian bytes of a natural, fixed width. -/
def natBytesBE : Nat → Nat → List Nat
  | 0, _ => []
  | k + 1, n => natBytesBE k (n / 256) ++ [n % 256]

/-- Pack bytes into big-endian 64-bit words (eight bytes per word). -/
def words64 : List Nat → List Nat
  | a :: b :: c :: d :: e :: f :: g :: h :: rest =>
      ((((((((a * 256 + b) * 256 + c) * 256 + d) * 256 + e) * 256 + f)
          * 256 + g) * 256 + h)) :: words64 rest
  | _ => []

/-- Extend a 16-word message block to the 80-word schedule, one word per
step. -/
def extendSchedule : Nat → List Nat → List Nat
  | 0, w => w
  | n + 1, w =>
      let t := w.length
      let next := (smallSigma1 (w.getD (t - 2) 0) + w.getD (t - 7) 0
                   + smallSigma0 (w.getD (t - 15) 0) + w.getD (t - 16) 0)
                  % 2 ^ 64
      extendSchedule n (w ++ [next])

/-- One SHA-512 round on the working state `[a,b,c,d,e,f,g,h]` with the
round constant and schedule word. -/
def sha512Round (st : List Nat) (kw : Nat × Nat) : List Nat :=
  match st with
  | [a, b, c, d, e, f, g, h] =>
      let t1 := (h + bigSigma1 e + sha2Ch e f g + kw.1 + kw.2) % 2 ^ 64
      let t2 := (bigSigma0 a + sha2Maj a b c) % 2 ^ 64
      [(t1 + t2) % 2 ^ 64, a, b, c, (d + t1) % 2 ^ 64, e, f, g]
  | _ => st

/-- SHA-512 compression of one 16-word block into the hash state. -/
def sha512Compress (hs : List Nat) (block : List Nat) : List Nat :=
  let w := extendSchedule 64 block
  let st := (sha512K.zip w).foldl sha512Round hs
  (hs.zip st).map (fun p => (p.1 + p.2) % 2 ^ 64)

/-- Fold the compression over the message, 16 words (128 bytes) per
block. -/
def sha512Blocks (hs : List Nat) : List Nat → List Nat
  | w0 :: w1 :: w2 :: w3 :: w4 :: w5 :: w6 :: w7 ::
    w8 :: w9 :: w10 :: w11 :: w12 :: w13 :: w14 :: w15 :: rest =>
      sha512Blocks (sha512Compress hs
        [w0, w1, w2, w3, w4, w5, w6, w7,
         w8, w9, w10, w11, w12, w13, w14, w15]) rest
  | _ => hs

/-- SHA-384 digest (48 bytes) of a byte list: pad to a multiple of 128
bytes with `0x80`, zeros and the 128-bit bit length, compress, keep the
first six words. -/
def sha384 (msg : List Nat) : List Nat :=
  let l := msg.length
  let padZeros := (128 - (l + 17) % 128) % 128
  let padded := msg ++ 128 :: List.replicate padZeros 0
                ++ natBytesBE 16 (8 * l)
  let hs := sha512Blocks sha384IV (words64 padded)
  ((hs.take 6).map (natBytesBE 8)).flatten

/-! ## The migration runner (`run_migrations`, lines 86-132)

A migration file is its filename, its raw bytes on disk, and whether
`conn.executescript` succeeds on it (script execution is external SQL,
abstracted to its success bit).  The `_sqlx_migrations` table is the
record list; `version` is its primary key, so an `INSERT` with an
already-present version raises `sqlite3.IntegrityError`.  Each file is
committed separately (line 132), so records of earlier files survive a
later fault. -/
structure MigrationFile where
  name : String
  content : List Nat
  execOk : Bool
deriving DecidableEq

structure MigrationRecord where
  version : Nat
  description : String
  success : Bool
  checksum : List Nat
  execution_time : Nat
deriving DecidableEq

inductive MigError where
  | unicodeDecodeError (name : String)
  | invalidMigrationFilename (name : String)
  | migrationExecFailure (name : String)
  | duplicateVersion (name : String)
deriving DecidableEq

/-- Tracking-table contents plus the names of the scripts whose execution
was attempted, in order. -/
structure MigState where
  records : List MigrationRecord
  executed : List String
deriving DecidableEq

/-- Insert a file into a name-sorted list (one step of Python's stable
`sorted`). -/
def insertFile (f : MigrationFile) : List MigrationFile → List MigrationFile
  | [] => [f]
  | g :: gs =>
    if lexLt f.name.data g.name.data then f :: g :: gs
    else g :: insertFile f gs

/-- `sorted(MIGRATIONS_DIR.glob("*.sql"))` (line 103): ascending raw
filename order. -/
def sortByName : List MigrationFile → List MigrationFile
  | [] => []
  | f :: fs => insertFile f (sortByName fs)

/-- Process one migration file, in the exact order of the loop body:
read the text (line 106), parse the name (line 110), checksum
(line 118), execute the script (line 121), insert the tracking record
(line 124). -/
def applyMigration (st : MigState) (f : MigrationFile) :
    MigState × Option MigError :=
  match readTextBytes f.content with
  | none => (st, some (.unicodeDecodeError f.name))
  | some sqlBytes =>
    match parseMigrationName f.name with
    | none => (st, some (.invalidMigrationFilename f.name))
    | some (version, description) =>
      let checksum := sha384 sqlBytes
      let st' : MigState := { st with executed := st.executed ++ [f.name] }
      if f.execOk then
        if st'.records.any (fun r => r.version == version) then
          (st', some (.duplicateVersion f.name))
        else
          ({ st' with records := st'.records
              ++ [⟨version, description, true, checksum, 1000000⟩] }, none)
      else (st', some (.migrationExecFailure f.name))

/-- Run the files in order, stopping at the first fault. -/
def runMigrationsFrom (st : MigState) :
    List MigrationFile → MigState × Option MigError
  | [] => (st, none)
  | f :: rest =>
    match applyMigration st f with
    | (st', none) => runMigrationsFrom st' rest
    | (st', some e) => (st', some e)

/-- `run_migrations`: sort the directory listing by filename, then apply
each file. -/
def run_migrations (files : List MigrationFile) :
    MigState × Option MigError :=
  runMigrationsFrom ⟨[], []⟩ (sortByName files)

/-- A file the loop passes without a fault: text decodes, name parses,
script executes. -/
def goodFile (f : MigrationFile) : Prop :=
  (readTextBytes f.content).isSome = true
  ∧ (parseMigrationName f.name).isSome = true
  ∧ f.execOk = true

instance : DecidablePred goodFile := fun f => by
  unfold goodFile; infer_instance

/-- The tracking record the runner writes for a (well-formed, successful)
file. -/
def mkRecord (f : MigrationFile) : MigrationRecord :=
  { version := ((parseMigrationName f.name).getD (0, "")).1
    description := ((parseMigrationName f.name).getD (0, "")).2
    success := true
    checksum := sha384 ((readTextBytes f.content).getD [])
    execution_time := 1000000 }

/-- Name order between files, as the sort leaves it. -/
def fileLe (a b : MigrationFile) : Prop :=
  lexLe a.name.data b.name.data = true

/-! ## Randomness and the lorem-ipsum synthesizers (lines 63-83)

The process-wide Mersenne-Twister state is modelled as an oracle of raw
draws.  `random.randint(lo, hi)` maps a raw draw into `[lo, hi]`;
`random.choice(seq)` picks the index `draw % len(seq)`.  Which raw draw
feeds which call site is fixed by explicit indices; no claim depends on
that correspondence, only on each draw's range. -/
def pyRandint (lo hi r : Nat) : Nat := lo + r % (hi - lo + 1)

def pyChoice {α : Type} (l : List α) (dflt : α) (r : Nat) : α :=
  l.getD (r % l.length) dflt

/-- Python `str.capitalize()`: first character uppercased, the rest
lowercased. -/
def pyCapitalize (s : String) : String :=
  match s.data with
  | [] => ""
  | c :: cs => (c.toUpper :: cs.map Char.toLower).asString

/-- Python `str.title()` on space-separated words (the only separator the
synthesized strings contain). -/
def pyTitle (s : String) : String :=
  String.intercalate " " ((s.splitOn " ").map pyCapitalize)

/-- `lorem_words`: `count` independent uniform picks from `LOREM_WORDS`,
space-joined. -/
def lorem_words (count : Nat) (r : Nat → Nat) : String :=
  String.intercalate " " ((List.range count).map
    (fun j => LOREM_WORDS.getD (r j % LOREM_WORDS.length) ""))

/-- `lorem_sentence`: 5-15 words, capitalized, with a final period. -/
def lorem_sentence (r : Nat → Nat) : String :=
  pyCapitalize (lorem_words (pyRandint 5 15 (r 0)) (fun n => r (n + 1)))
    ++ "."

/-- `lorem_paragraph`: 3-8 sentences, space-joined. -/
def lorem_paragraph (r : Nat → Nat) : String :=
  let count := pyRandint 3 8 (r 0)
  String.intercalate " " ((List.range count).map
    (fun j => lorem_sentence (fun n => r (1 + j + count * (n + 1)))))

/-- `lorem_paragraphs`: `count` paragraphs, each wrapped in `<p>` tags,
newline-joined. -/
def lorem_paragraphs (count : Nat) (r : Nat → Nat) : String :=
  String.intercalate "\n" ((List.range count).map
    (fun j => "<p>" ++ lorem_paragraph (fun n => r (j + count * (n + 1)))
              ++ "</p>"))

/-- `str(uuid.uuid4())`: 128 random bits with the version nibble forced
to 4 and the variant bits to `10`, printed as 8-4-4-4-12 lowercase hex. -/
def hexPad : Nat → Nat → List Char
  | 0, _ => []
  | k + 1, n =>
      hexPad k (n / 16)
        ++ [if n % 16 < 10 then Char.ofNat (48 + n % 16)
            else Char.ofNat (87 + n % 16)]

def uuid4String (r : Nat) : String :=
  let n := r % 2 ^ 128
  let n := (n &&& (2 ^ 128 - 1 ^^^ (15 <<< 76))) ||| (4 <<< 76)
  let n := (n &&& (2 ^ 128 - 1 ^^^ (3 <<< 62))) ||| (2 <<< 62)
  let ds := hexPad 32 n
  (ds.take 8 ++ '-' :: (ds.drop 8).take 4 ++ '-' :: (ds.drop 12).take 4
    ++ '-' :: (ds.drop 16).take 4 ++ '-' :: ds.drop 20).asString

/-! ## Database rows and state

Timestamps are seconds as integers; the script stores `isoformat()`
strings, whose ordering agrees with the timestamps they print.  Row
identifiers model SQLite rowids on the freshly created tables: each
insert gets the current row count plus one, which is `cursor.lastrowid`
for tables the run creates from scratch (the database file is deleted at
startup). -/
structure TagRow where
  id : Nat
  name : String
  color : String
  style : String
deriving DecidableEq

structure FeedRow where
  id : Nat
  url : String
  title : String
  description : String
  site_url : String
  color : String
  fetch_frequency : String
  created_at : Int
  updated_at : Int
deriving DecidableEq

structure ArticleRow where
  id : Nat
  feed_id : Nat
  guid : String
  title : String
  url : String
  content : String
  summary : String
  author : String
  published_at : Int
  is_read : Bool
  is_starred : Bool
  created_at : Int
  updated_at : Int
deriving DecidableEq

structure FtsRow where
  rowid : Nat
  article_id : Nat
  title : String
  content : String
  summary : String
  author : String
deriving DecidableEq

structure DB where
  migrations : List MigrationRecord
  tags : List TagRow
  feeds : List FeedRow
  feed_tags : List (Nat × Nat)
  articles : List ArticleRow
  articles_fts : List FtsRow
  ftsTriggers : Bool
deriving DecidableEq

/-- The store right after the migrations of a fresh run: empty tables,
FTS maintenance triggers in place (the migration scripts create them). -/
def freshDB : DB := ⟨[], [], [], [], [], [], true⟩

inductive PipelineError where
  | indexError
  | integrityError
deriving DecidableEq

/-! ## `create_tags` (lines 135-150) -/
structure TagRand where
  colorR : Nat
  styleR : Nat

def createTagsLoop (rand : Nat → TagRand) :
    Nat → List String → DB → DB × List Nat
  | _, [], db => (db, [])
  | idx, name :: names, db =>
    let color := pyChoice COLORS "" (rand idx).colorR
    let style := pyChoice STYLES "" (rand idx).styleR
    let id := db.tags.length + 1
    let db' := { db with tags := db.tags ++ [⟨id, name, color, style⟩] }
    let res := createTagsLoop rand (idx + 1) names db'
    (res.1, id :: res.2)

/-- `create_tags`: one insert per name in `TAG_NAMES[:NUM_TAGS]`, with a
random color and style each; returns the new row ids. -/
def create_tags (rand : Nat → TagRand) (db : DB) : DB × List Nat :=
  createTagsLoop rand 0 (TAG_NAMES.take NUM_TAGS) db

/-! ## `create_feeds` (lines 153-195) -/
structure FeedRand where
  titleR : Nat → Nat
  descR : Nat → Nat
  colorR : Nat
  freqR : Nat
  daysR : Nat
  numTagsR : Nat
  sampleR : Nat → Nat

/-- `random.sample(l, k)` for `k ≤ len(l)`: `k` distinct positions drawn
without replacement, here by repeatedly removing a drawn position. -/
def sampleDistinct : Nat → List Nat → (Nat → Nat) → List Nat
  | 0, _, _ => []
  | _ + 1, [], _ => []
  | k + 1, a :: t, r =>
    let idx := r 0 % (a :: t).length
    let x := (a :: t).getD idx 0
    x :: sampleDistinct k ((a :: t).eraseIdx idx) (fun n => r (n + 1))

/-- The tags drawn for one feed (lines 182-184): `num_tags = randint(0,5)`
and, when positive and tags exist, a sample of `min num_tags (len tags)`
distinct tag ids. -/
def feedTagSelection (tagIds : List Nat) (fr : FeedRand) : List Nat :=
  let num_tags := pyRandint 0 5 fr.numTagsR
  if num_tags > 0 ∧ tagIds ≠ [] then
    sampleDistinct (min num_tags tagIds.length) tagIds fr.sampleR
  else []

/-- `INSERT OR IGNORE INTO feed_tags` (line 187): a duplicate
`(feed_id, tag_id)` pair leaves the table unchanged instead of raising. -/
def insertOrIgnoreFeedTag (table : List (Nat × Nat)) (p : Nat × Nat) :
    List (Nat × Nat) :=
  if p ∈ table then table else table ++ [p]

def createFeedsLoop (tagIds : List Nat) (now : Int) (rand : Nat → FeedRand) :
    Nat → Nat → DB → DB × List Nat
  | _, 0, db => (db, [])
  | i, n + 1, db =>
    let fr := rand i
    let title := "Feed #" ++ toString (i + 1) ++ ": "
                 ++ pyTitle (lorem_words 3 fr.titleR)
    let url := "https://invalid-feed-" ++ toString (i + 1)
               ++ ".example.invalid/rss.xml"
    let description := lorem_sentence fr.descR
    let site_url := "https://invalid-feed-" ++ toString (i + 1)
                    ++ ".example.invalid"
    let color := pyChoice COLORS "" fr.colorR
    let fetch_frequency :=
      pyChoice ["smart", "frequent", "normal", "rare"] "" fr.freqR
    let created_at := now - 86400 * (pyRandint 0 365 fr.daysR : Int)
    let fid := db.feeds.length + 1
    let db' := { db with feeds := db.feeds ++
      [(⟨fid, url, title, description, site_url, color, fetch_frequency,
         created_at, created_at⟩ : FeedRow)] }
    let sel := feedTagSelection tagIds fr
    let db'' := { db' with
      feed_tags := sel.foldl
        (fun t tag => insertOrIgnoreFeedTag t (fid, tag)) db'.feed_tags }
    let res := createFeedsLoop tagIds now rand (i + 1) n db''
    (res.1, fid :: res.2)

/-- `create_feeds`: `NUM_FEEDS` feeds, each with 0-5 random tags;
returns the new feed ids. -/
def create_feeds (tagIds : List Nat) (now : Int) (rand : Nat → FeedRand)
    (db : DB) : DB × List Nat :=
  createFeedsLoop tagIds now rand 0 NUM_FEEDS db

/-! ## `create_articles` (lines 198-296) and the FTS mirror -/
structure ArticleRand where
  feedR : Nat
  titleLenR : Nat
  titleWordsR : Nat → Nat
  guidR : Nat
  parasR : Nat
  contentR : Nat → Nat
  summaryR : Nat → Nat
  authorR : Nat → Nat
  daysR : Nat
  hoursR : Nat
  minsR : Nat
  readB : Bool
  starB : Bool
  offsetR : Nat

/-- One iteration of the generation loop (lines 216-237).  The
`random.random() < p` flag draws are modelled by their Boolean outcomes
(`readB`, `starB`); `created_at = published_at + randint(1, 60) minutes`
(line 231). -/
def articleRow (feedIds : List Nat) (now : Int) (i : Nat)
    (ar : ArticleRand) (id : Nat) : ArticleRow :=
  let feed_id := pyChoice feedIds 0 ar.feedR
  let guid := uuid4String ar.guidR
  let published_at := now - (86400 * (pyRandint 0 365 ar.daysR : Int)
    + 3600 * (pyRandint 0 23 ar.hoursR : Int)
    + 60 * (pyRandint 0 59 ar.minsR : Int))
  let created_at := published_at + 60 * (pyRandint 1 60 ar.offsetR : Int)
  { id := id
    feed_id := feed_id
    guid := guid
    title := "Article #" ++ toString (i + 1) ++ ": "
      ++ pyTitle (lorem_words (pyRandint 4 10 ar.titleLenR) ar.titleWordsR)
    url := "https://example.invalid/article/" ++ guid
    content := lorem_paragraphs (pyRandint 2 6 ar.parasR) ar.contentR
    summary := lorem_paragraph ar.summaryR
    author := pyTitle (lorem_words 2 ar.authorR)
    published_at := published_at
    is_read := ar.readB
    is_starred := ar.starB
    created_at := created_at
    updated_at := created_at }

/-- All generated article records, in order; row ids are assigned by the
store at insert. -/
def articleRows (feedIds : List Nat) (now : Int) (rand : Nat → ArticleRand)
    (startId : Nat) (n : Nat) : List ArticleRow :=
  (List.range n).map (fun i => articleRow feedIds now i (rand i) (startId + i))

/-- The flush pattern of the loop (lines 239-264): the buffer is flushed
as a full batch exactly when it reaches `batch_size`, and any final
partial batch is flushed after the loop.  The fuel argument only bounds
the recursion; the byte count always suffices. -/
def chunkListF {α : Type} (k : Nat) : Nat → List α → List (List α)
  | _, [] => []
  | 0, l => [l]
  | fuel + 1, l => l.take k :: chunkListF k fuel (l.drop k)

/-- One `executemany` + `commit` (lines 240-249): a multi-row insert of
the batch in one transaction.  Were the FTS maintenance triggers still
active, each inserted row would also be mirrored into `articles_fts`. -/
def insertArticleBatch (db : DB) (batch : List ArticleRow) : DB :=
  { db with
    articles := db.articles ++ batch
    articles_fts :=
      if db.ftsTriggers then
        db.articles_fts ++ batch.map
          (fun a => ⟨a.id, a.id, a.title, a.content, a.summary, a.author⟩)
      else db.articles_fts }

/-- The FTS projection of an article (the `SELECT id, id, title, content,
summary, author FROM articles` of line 270). -/
def mirrorRow (a : ArticleRow) : FtsRow :=
  ⟨a.id, a.id, a.title, a.content, a.summary, a.author⟩

/-- Modelled from the spec: the `articles_fts` schema itself comes from
the migration scripts under `migrations/`, which are not among the
sources; per the spec the FTS mirror is keyed by the article identifier
(its `rowid`), one entry per article, so a bulk insert that reuses an
existing `rowid` (or inserts one twice) violates the key: SQLite raises
`IntegrityError` and rolls the whole statement back. -/
def ftsInsertConflicts (existing newRows : List FtsRow) : Prop :=
  (∃ r ∈ newRows, r.rowid ∈ existing.map FtsRow.rowid)
  ∨ ¬ (newRows.map FtsRow.rowid).Nodup

instance (existing newRows : List FtsRow) :
    Decidable (ftsInsertConflicts existing newRows) := by
  unfold ftsInsertConflicts; infer_instance

/-- The rebuild tail of `create_articles` (lines 268-296): one bulk
`INSERT ... SELECT` repopulating `articles_fts` from the full `articles`
table, then `CREATE TRIGGER IF NOT EXISTS` for the three maintenance
triggers.  On a key conflict the statement fails and nothing changes
(no commit was reached). -/
def rebuildFts (db : DB) : DB × Option PipelineError :=
  let newRows := db.articles.map mirrorRow
  if ftsInsertConflicts db.articles_fts newRows then
    (db, some .integrityError)
  else
    ({ db with articles_fts := db.articles_fts ++ newRows,
               ftsTriggers := true }, none)

/-- `create_articles`: drop the three FTS triggers (lines 207-210),
generate and flush `numArticles` records in batches of 1000, then bulk
rebuild the FTS mirror and re-create the triggers.  `random.choice` on an
empty feed list raises `IndexError`. -/
def create_articles (numArticles : Nat) (feedIds : List Nat) (now : Int)
    (rand : Nat → ArticleRand) (db : DB) : DB × Option PipelineError :=
  let db := { db with ftsTriggers := false }
  if numArticles ≠ 0 ∧ feedIds = [] then (db, some .indexError)
  else
    let rows := articleRows feedIds now rand (db.articles.length + 1)
                  numArticles
    let batches := chunkListF 1000 rows.length rows
    let db := batches.foldl insertArticleBatch db
    rebuildFts db

/-- `print_stats` (lines 299-319): the four row counts. -/
def print_stats (db : DB) : Nat × Nat × Nat × Nat :=
  (db.feeds.length, db.articles.length, db.tags.length, db.feed_tags.length)

/-- A filename beginning with exactly `L` ASCII digits followed by an
underscore (the digit-width hypothesis of the spec's ordering caveat). -/
def versionShape (L : Nat) (f : MigrationFile) : Prop :=
  (f.name.data.takeWhile isDigitChar).length = L
  ∧ 0 < L
  ∧ (f.name.data.dropWhile isDigitChar).head? = some '_'

instance (L : Nat) (f : MigrationFile) : Decidable (versionShape L f) := by
  unfold versionShape; infer_instance

/-! # Theorems -/

theorem lexLt_irrefl : ∀ l : List Char, lexLt l l = false := by
  intro l
  induction l with
  | nil => rfl
  | cons a as ih => simp [lexLt, ih]

theorem lexLt_cons_iff {x y : Char} {xs ys : List Char} :
    lexLt (x :: xs) (y :: ys) = true ↔
      x.toNat < y.toNat ∨ (x.toNat = y.toNat ∧ lexLt xs ys = true) := by
  simp only [lexLt]
  by_cases h1 : x.toNat < y.toNat
  · simp [h1]
  · by_cases h2 : y.toNat < x.toNat
    · simp [h1, h2]; omega
    · have h3 : x.toNat = y.toNat := by omega
      simp [h1, h2, h3]

theorem lexLt_trans : ∀ {a b c : List Char},
    lexLt a b = true → lexLt b c = true → lexLt a c = true := by
  intro a
  induction a with
  | nil =>
    intro b c hab hbc
    cases b with
    | nil => simp [lexLt] at hab
    | cons y ys =>
      cases c with
      | nil => simp [lexLt] at hbc
      | cons z zs => simp [lexLt]
  | cons x xs ih =>
    intro b c hab hbc
    cases b with
    | nil => simp [lexLt] at hab
    | cons y ys =>
      cases c with
      | nil => simp [lexLt] at hbc
      | cons z zs =>
        rw [lexLt_cons_iff] at hab hbc ⊢
        rcases hab with hab | ⟨hab, hab'⟩
        · rcases hbc with hbc | ⟨hbc, _⟩
          · exact Or.inl (Nat.lt_trans hab hbc)
          · exact Or.inl (hbc ▸ hab)
        · rcases hbc with hbc | ⟨hbc, hbc'⟩
          · exact Or.inl (hab ▸ hbc)
          · exact Or.inr ⟨hab.trans hbc, ih hab' hbc'⟩

theorem lexLt_asymm : ∀ {a b : List Char},
    lexLt a b = true → lexLt b a = false := by
  intro a b hab
  by_cases hba : lexLt b a = true
  · have := lexLt_trans hab hba
    rw [lexLt_irrefl] at this
    exact absurd this (by simp)
  · simpa using hba

/-! Digit-string arithmetic: equal-length digit strings compare
lexicographically exactly as their numeric values do.  This is the
load-bearing fact behind the spec's digit-width caveat for migration
ordering. -/
theorem foldlDigits_acc (l : List Char) : ∀ a : Nat,
    l.foldl (fun a c => a * 10 + (c.toNat - 48)) a
      = a * 10 ^ l.length + digitsVal l := by
  induction l with
  | nil => intro a; simp [digitsVal]
  | cons d l ih =>
    intro a
    have hd : digitsVal (d :: l)
        = (d.toNat - 48) * 10 ^ l.length + digitsVal l := by
      simp only [digitsVal, List.foldl_cons]
      rw [ih (0 * 10 + (d.toNat - 48))]
      simp [digitsVal]
    simp only [List.foldl_cons]
    rw [ih (a * 10 + (d.toNat - 48)), hd]
    simp only [List.length_cons, pow_succ]
    ring

theorem digitsVal_cons (c : Char) (ds : List Char) :
    digitsVal (c :: ds) = (c.toNat - 48) * 10 ^ ds.length + digitsVal ds := by
  simp only [digitsVal, List.foldl_cons]
  rw [foldlDigits_acc ds (0 * 10 + (c.toNat - 48))]
  simp [digitsVal]

theorem digitsVal_lt_pow {ds : List Char} (h : ∀ c ∈ ds, isDigitChar c) :
    digitsVal ds < 10 ^ ds.length := by
  induction ds with
  | nil => simp [digitsVal]
  | cons c l ih =>
    have hc : isDigitChar c := h c (by simp)
    have hc' : c.toNat - 48 ≤ 9 := by
      simp [isDigitChar] at hc
      omega
    have ihl := ih (fun d hd => h d (by simp [hd]))
    rw [digitsVal_cons]
    have hmul : (c.toNat - 48) * 10 ^ l.length ≤ 9 * 10 ^ l.length :=
      Nat.mul_le_mul_right _ hc'
    have hpow : 10 ^ (c :: l).length = 9 * 10 ^ l.length + 10 ^ l.length := by
      simp only [List.length_cons, pow_succ]
      ring
    omega

/-- Equal-width digit strings: numerically smaller implies
lexicographically smaller, whatever follows each. -/
theorem lexLt_of_digitsVal_lt :
    ∀ {ds₁ ds₂ : List Char} {t₁ t₂ : List Char},
    (∀ c ∈ ds₁, isDigitChar c) → (∀ c ∈ ds₂, isDigitChar c) →
    ds₁.length = ds₂.length →
    digitsVal ds₁ < digitsVal ds₂ →
    lexLt (ds₁ ++ t₁) (ds₂ ++ t₂) = true := by
  intro ds₁
  induction ds₁ with
  | nil =>
    intro ds₂ t₁ t₂ _ _ hlen hv
    cases ds₂ with
    | nil => simp [digitsVal] at hv
    | cons => simp at hlen
  | cons c₁ l₁ ih =>
    intro ds₂ t₁ t₂ h₁ h₂ hlen hv
    cases ds₂ with
    | nil => simp at hlen
    | cons c₂ l₂ =>
      simp only [List.length_cons, Nat.add_right_cancel_iff] at hlen
      rw [digitsVal_cons, digitsVal_cons, hlen] at hv
      have hd₁ : digitsVal l₁ < 10 ^ l₁.length :=
        digitsVal_lt_pow (fun d hd => h₁ d (by simp [hd]))
      have hd₂ : digitsVal l₂ < 10 ^ l₂.length :=
        digitsVal_lt_pow (fun d hd => h₂ d (by simp [hd]))
      rw [hlen] at hd₁
      have h48₁ : 48 ≤ c₁.toNat ∧ c₁.toNat ≤ 57 := by
        have := h₁ c₁ (by simp)
        simp [isDigitChar] at this
        omega
      have h48₂ : 48 ≤ c₂.toNat ∧ c₂.toNat ≤ 57 := by
        have := h₂ c₂ (by simp)
        simp [isDigitChar] at this
        omega
      simp only [List.cons_append]
      rw [lexLt_cons_iff]
      by_cases hc : c₁.toNat < c₂.toNat
      · exact Or.inl hc
      · have hof : (c₁.toNat - 48) ≤ (c₂.toNat - 48) := by
          by_contra hgt
          have hstep : (c₂.toNat - 48) + 1 ≤ (c₁.toNat - 48) := by omega
          have hmul : ((c₂.toNat - 48) + 1) * 10 ^ l₂.length
              ≤ (c₁.toNat - 48) * 10 ^ l₂.length :=
            Nat.mul_le_mul_right _ hstep
          have hexp : ((c₂.toNat - 48) + 1) * 10 ^ l₂.length
              = (c₂.toNat - 48) * 10 ^ l₂.length + 10 ^ l₂.length := by
            ring
          omega
        have hceq : c₁.toNat = c₂.toNat := by omega
        refine Or.inr ⟨hceq, ?_⟩
        have hveq : digitsVal l₁ < digitsVal l₂ := by
          have heq : (c₁.toNat - 48) = (c₂.toNat - 48) := by omega
          rw [heq] at hv
          omega
        exact ih (fun d hd => h₁ d (by simp [hd]))
          (fun d hd => h₂ d (by simp [hd])) hlen hveq

theorem decodeUtf8Loop_ascii {l : List Nat} : ∀ {fuel : Nat},
    l.length ≤ fuel → (∀ b ∈ l, b ≤ 127) → decodeUtf8Loop fuel l = some l := by
  induction l with
  | nil => intro fuel _ _; cases fuel <;> rfl
  | cons b rest ih =>
    intro fuel hfuel h
    have hb : b ≤ 127 := h b (by simp)
    cases fuel with
    | zero => simp at hfuel
    | succ fuel =>
      have hfuel' : rest.length ≤ fuel := by simp at hfuel; omega
      have hrest := @ih fuel hfuel' (fun x hx => h x (by simp [hx]))
      have hstep : decodeUtf8Step (b :: rest) = some (b, rest) := by
        simp [decodeUtf8Step, hb]
      simp [decodeUtf8Loop, hstep, hrest]

theorem decodeUtf8_ascii {l : List Nat} (h : ∀ b ∈ l, b ≤ 127) :
    decodeUtf8 l = some l :=
  decodeUtf8Loop_ascii (Nat.le_refl _) h

theorem encodeUtf8_ascii {l : List Nat} (h : ∀ b ∈ l, b ≤ 127) :
    encodeUtf8 l = l := by
  induction l with
  | nil => rfl
  | cons b rest ih =>
    have hb : b ≤ 127 := h b (by simp)
    have hrest := ih (fun x hx => h x (by simp [hx]))
    simp only [encodeUtf8, List.map_cons, List.flatten_cons] at hrest ⊢
    simp [encodeUtf8Char, hb, hrest]

theorem translateNewlines_of_no_cr {l : List Nat} (h : 13 ∉ l) :
    translateNewlines l = l := by
  induction l with
  | nil => rfl
  | cons c rest ih =>
    have hc : c ≠ 13 := by intro hc; exact h (by simp [hc])
    have hrest := ih (fun hx => h (by simp [hx]))
    cases rest with
    | nil => simp [translateNewlines, hc]
    | cons d rest2 => simp [translateNewlines, hc, hrest]

theorem readTextBytes_ascii_no_cr {l : List Nat}
    (h : ∀ b ∈ l, b ≤ 127) (hcr : 13 ∉ l) :
    readTextBytes l = some l := by
  simp [readTextBytes, decodeUtf8_ascii h, translateNewlines_of_no_cr hcr,
        encodeUtf8_ascii h]

theorem fileLe_iff {a b : MigrationFile} :
    fileLe a b ↔ lexLt b.name.data a.name.data = false := by
  unfold fileLe lexLe
  cases h : lexLt b.name.data a.name.data <;> simp

theorem mem_insertFile {x f : MigrationFile} :
    ∀ {l : List MigrationFile}, x ∈ insertFile f l ↔ x = f ∨ x ∈ l := by
  intro l
  induction l with
  | nil => simp [insertFile]
  | cons g gs ih =>
    by_cases hfg : lexLt f.name.data g.name.data = true
    · simp [insertFile, hfg]
    · simp only [insertFile, if_neg hfg, List.mem_cons, ih]
      tauto

theorem pairwise_insertFile {f : MigrationFile} {l : List MigrationFile}
    (h : l.Pairwise fileLe) : (insertFile f l).Pairwise fileLe := by
  induction l with
  | nil => simp [insertFile, List.pairwise_singleton]
  | cons g gs ih =>
    rw [List.pairwise_cons] at h
    obtain ⟨hg, hgs⟩ := h
    simp only [insertFile]
    by_cases hfg : lexLt f.name.data g.name.data = true
    · rw [if_pos hfg, List.pairwise_cons]
      refine ⟨?_, List.pairwise_cons.mpr ⟨hg, hgs⟩⟩
      intro x hx
      rw [fileLe_iff]
      rcases List.mem_cons.mp hx with rfl | hx
      · exact lexLt_asymm hfg
      · have hgx := fileLe_iff.mp (hg x hx)
        by_cases hxf : lexLt x.name.data f.name.data = true
        · exact absurd (lexLt_trans hxf hfg) (by simp [hgx])
        · simpa using hxf
    · rw [if_neg hfg, List.pairwise_cons]
      refine ⟨?_, ih hgs⟩
      intro x hx
      rcases mem_insertFile.mp hx with rfl | hx
      · rw [fileLe_iff]
        simpa using hfg
      · exact hg x hx

theorem sortByName_sorted (files : List MigrationFile) :
    (sortByName files).Pairwise fileLe := by
  induction files with
  | nil => simp [sortByName]
  | cons f fs ih => exact pairwise_insertFile ih

/-! ## Helper lemmas: `create_tags` -/
theorem createTagsLoop_spec (rand : Nat → TagRand) :
    ∀ (names : List String) (idx : Nat) (db : DB),
    ((createTagsLoop rand idx names db).1.tags.map TagRow.name
      = db.tags.map TagRow.name ++ names)
    ∧ (createTagsLoop rand idx names db).2.length = names.length
    ∧ (createTagsLoop rand idx names db).1.tags.length
        = db.tags.length + names.length := by
  intro names
  induction names with
  | nil => intro idx db; simp [createTagsLoop]
  | cons name names ih =>
    intro idx db
    simp only [createTagsLoop]
    obtain ⟨h1, h2, h3⟩ := ih (idx + 1)
      { db with tags := db.tags
          ++ [⟨db.tags.length + 1, name,
               pyChoice COLORS "" (rand idx).colorR,
               pyChoice STYLES "" (rand idx).styleR⟩] }
    refine ⟨?_, ?_, ?_⟩
    · rw [h1]; simp
    · simpa using h2
    · rw [h3]; simp; omega

/-! ## Claim C1 -/
/-- Claim C1 (corrected): `create_tags` inserts one tag row per name of
`TAG_NAMES[:NUM_TAGS]`, in vocabulary order, and returns one id per
inserted row — but the vocabulary has only 49 names, so with
`NUM_TAGS = 50` the slice has `min NUM_TAGS 49 = 49` entries and a full
run produces 49 tag rows and 49 identifiers, not 50. -/
theorem create_tags_inserts_min_vocab (rand : Nat → TagRand) (db : DB) :
    ((create_tags rand db).1.tags.map TagRow.name
      = db.tags.map TagRow.name ++ TAG_NAMES.take NUM_TAGS)
    ∧ (create_tags rand db).2.length = min NUM_TAGS TAG_NAMES.length
    ∧ (create_tags rand db).1.tags.length
        = db.tags.length + min NUM_TAGS TAG_NAMES.length
    ∧ min NUM_TAGS TAG_NAMES.length = 49 := by
  obtain ⟨h1, h2, h3⟩ := createTagsLoop_spec rand (TAG_NAMES.take NUM_TAGS) 0 db
  refine ⟨h1, ?_, ?_, by decide⟩
  · rw [create_tags, h2, List.length_take]
  · rw [create_tags, h3, List.length_take]

/-- Claim C1, counterexample: run against the empty target, `create_tags`
returns 49 identifiers and leaves 49 tag rows — not `NUM_TAGS = 50` as
the claim states. -/
theorem create_tags_count_ne_NUM_TAGS :
    (create_tags (fun _ => ⟨0, 0⟩) freshDB).2.length = 49
    ∧ (create_tags (fun _ => ⟨0, 0⟩) freshDB).1.tags.length = 49
    ∧ ¬ ((create_tags (fun _ => ⟨0, 0⟩) freshDB).2.length = NUM_TAGS) := by
  refine ⟨by decide, by decide, by decide⟩

/-! ## Helper lemmas: the migration runner -/
theorem applyMigration_good {st : MigState} {f : MigrationFile}
    (hg : goodFile f)
    (hfresh : ∀ r ∈ st.records, r.version ≠ (mkRecord f).version) :
    applyMigration st f
      = ({ records := st.records ++ [mkRecord f],
           executed := st.executed ++ [f.name] }, none) := by
  obtain ⟨h1, h2, h3⟩ := hg
  obtain ⟨sb, hsb⟩ := Option.isSome_iff_exists.mp h1
  obtain ⟨⟨v, d⟩, hvd⟩ := Option.isSome_iff_exists.mp h2
  have hver : (mkRecord f).version = v := by simp [mkRecord, hvd]
  have hany : (st.records.any (fun r => r.version == v)) = false := by
    rw [List.any_eq_false]
    intro r hr
    have := hfresh r hr
    rw [hver] at this
    simpa using this
  simp only [applyMigration, hsb, hvd, h3, if_true, hany, Bool.false_eq_true,
    if_false]
  simp [mkRecord, hsb, hvd]

theorem applyMigration_badname {st : MigState} {f : MigrationFile}
    (hrt : (readTextBytes f.content).isSome = true)
    (hp : parseMigrationName f.name = none) :
    applyMigration st f = (st, some (.invalidMigrationFilename f.name)) := by
  obtain ⟨sb, hsb⟩ := Option.isSome_iff_exists.mp hrt
  simp [applyMigration, hsb, hp]

theorem applyMigration_execfail {st : MigState} {f : MigrationFile}
    (hrt : (readTextBytes f.content).isSome = true)
    (hp : (parseMigrationName f.name).isSome = true)
    (hex : f.execOk = false) :
    applyMigration st f
      = ({ st with executed := st.executed ++ [f.name] },
         some (.migrationExecFailure f.name)) := by
  obtain ⟨sb, hsb⟩ := Option.isSome_iff_exists.mp hrt
  obtain ⟨⟨v, d⟩, hvd⟩ := Option.isSome_iff_exists.mp hp
  simp [applyMigration, hsb, hvd, hex]

/-- Whatever happens to one file, the tracking table either is untouched
or gains exactly the file's success record at the end. -/
theorem applyMigration_records_cases (st : MigState) (f : MigrationFile) :
    (applyMigration st f).1.records = st.records
    ∨ ((applyMigration st f).1.records = st.records ++ [mkRecord f]
       ∧ (parseMigrationName f.name).isSome = true) := by
  unfold applyMigration
  cases hsb : readTextBytes f.content with
  | none => left; rfl
  | some sb =>
    cases hvd : parseMigrationName f.name with
    | none => left; rfl
    | some vd =>
      obtain ⟨v, d⟩ := vd
      cases hex : f.execOk with
      | false => left; simp
      | true =>
        by_cases hany : (st.records.any (fun r => r.version == v)) = true
        · left; simp [hany]
        · right
          refine ⟨?_, by simp [hvd]⟩
          simp only [Bool.not_eq_true] at hany
          simp [hany, mkRecord, hsb, hvd]

theorem applyMigration_executed_cases (st : MigState) (f : MigrationFile) :
    (applyMigration st f).1.executed = st.executed
    ∨ (applyMigration st f).1.executed = st.executed ++ [f.name] := by
  unfold applyMigration
  cases hsb : readTextBytes f.content with
  | none => left; rfl
  | some sb =>
    cases hvd : parseMigrationName f.name with
    | none => left; rfl
    | some vd =>
      obtain ⟨v, d⟩ := vd
      cases hex : f.execOk with
      | false => right; simp
      | true =>
        by_cases hany : (st.records.any (fun r => r.version == v)) = true
        · right; simp [hany]
        · right
          simp only [Bool.not_eq_true] at hany
          simp [hany]

theorem runFrom_cons_ok {st st' : MigState} {f : MigrationFile}
    {fs : List MigrationFile} (h : applyMigration st f = (st', none)) :
    runMigrationsFrom st (f :: fs) = runMigrationsFrom st' fs := by
  rw [runMigrationsFrom, h]

theorem runFrom_cons_err {st st' : MigState} {f : MigrationFile}
    {fs : List MigrationFile} {e : MigError}
    (h : applyMigration st f = (st', some e)) :
    runMigrationsFrom st (f :: fs) = (st', some e) := by
  rw [runMigrationsFrom, h]

/-- Running a faultless, fresh-versioned block of files just appends its
records and execution marks, then continues. -/
theorem runFrom_append_good :
    ∀ (pre : List MigrationFile) (st : MigState) (rest : List MigrationFile),
    (∀ g ∈ pre, goodFile g) →
    (∀ g ∈ pre, ∀ r ∈ st.records, r.version ≠ (mkRecord g).version) →
    pre.Pairwise (fun a b => (mkRecord a).version ≠ (mkRecord b).version) →
    runMigrationsFrom st (pre ++ rest)
      = runMigrationsFrom
          ⟨st.records ++ pre.map mkRecord,
           st.executed ++ pre.map MigrationFile.name⟩ rest := by
  intro pre
  induction pre with
  | nil =>
    intro st rest _ _ _
    cases st
    simp
  | cons g pre ih =>
    intro st rest hgood hfresh hdist
    have happ := applyMigration_good (hgood g (by simp))
      (fun r hr => hfresh g (by simp) r hr)
    rw [List.cons_append, runFrom_cons_ok happ]
    rw [List.pairwise_cons] at hdist
    rw [ih _ rest (fun x hx => hgood x (by simp [hx]))
      (by
        intro x hx r hr
        rcases List.mem_append.mp hr with hr | hr
        · exact hfresh x (by simp [hx]) r hr
        · have : r = mkRecord g := by simpa using hr
          subst this
          exact hdist.1 x hx)
      hdist.2]
    simp

/-! ## Claim C10 -/
theorem runFrom_success_time :
    ∀ (fs : List MigrationFile) (st : MigState),
    (∀ r ∈ st.records, r.success = true ∧ r.execution_time = 1000000) →
    ∀ r ∈ (runMigrationsFrom st fs).1.records,
      r.success = true ∧ r.execution_time = 1000000 := by
  intro fs
  induction fs with
  | nil => intro st h; exact h
  | cons f fs ih =>
    intro st h
    have hnext : ∀ r ∈ (applyMigration st f).1.records,
        r.success = true ∧ r.execution_time = 1000000 := by
      rcases applyMigration_records_cases st f with hc | ⟨hc, _⟩ <;> rw [hc]
      · exact h
      · intro r hr
        rcases List.mem_append.mp hr with hr | hr
        · exact h r hr
        · have : r = mkRecord f := by simpa using hr
          subst this
          exact ⟨rfl, rfl⟩
    rcases happ : applyMigration st f with ⟨st', e⟩
    rw [happ] at hnext
    cases e with
    | none =>
      rw [runFrom_cons_ok happ]
      exact ih st' hnext
    | some err =>
      rw [runFrom_cons_err happ]
      exact hnext

/-- Claim C10 (confirmed): every record the runner ever writes to
`_sqlx_migrations` carries `success = 1` and the hard-coded
`execution_time = 1000000`; a failed migration writes no record, so no
`success = false` row ever exists. -/
theorem run_migrations_records_success (files : List MigrationFile) :
    ∀ r ∈ (run_migrations files).1.records,
      r.success = true ∧ r.execution_time = 1000000 :=
  runFrom_success_time (sortByName files) ⟨[], []⟩ (by simp)

/-- Claim C10, witness: a concrete one-file run whose single tracking
record the theorem covers. -/
theorem run_migrations_records_success_witness :
    ((⟨1, "a", true, sha384 [], 1000000⟩ : MigrationRecord)
        ∈ (run_migrations [⟨"1_a.sql", [], true⟩]).1.records)
    ∧ (⟨1, "a", true, sha384 [], 1000000⟩ : MigrationRecord).success = true
    ∧ (⟨1, "a", true, sha384 [], 1000000⟩ : MigrationRecord).execution_time
        = 1000000 :=
  ⟨by decide,
   run_migrations_records_success [⟨"1_a.sql", [], true⟩] _ (by decide)⟩

theorem mem_sortByName {x : MigrationFile} :
    ∀ {l : List MigrationFile}, x ∈ sortByName l ↔ x ∈ l := by
  intro l
  induction l with
  | nil => simp [sortByName]
  | cons f fs ih => simp [sortByName, mem_insertFile, ih]

/-! ## Claim C5 -/
/-- Claim C5 (confirmed): the runner processes the files strictly in
order and stops at the first faulty one.  With all files faultless the
tracking table gets exactly one success record per file, in order; a
file whose name does not parse aborts before its script (or any later
one) runs; a script failure aborts with no tracking record for that
file; in each case the table holds exactly the records of the faultless
prefix, untouched (no rollback).  Versions are assumed pairwise distinct,
as the tracking schema's primary key requires. -/
theorem run_migrations_fault_handling (files : List MigrationFile)
    (hdist : (sortByName files).Pairwise
      (fun a b => (mkRecord a).version ≠ (mkRecord b).version)) :
    ((∀ g ∈ sortByName files, goodFile g) →
      (run_migrations files).2 = none
      ∧ (run_migrations files).1.records = (sortByName files).map mkRecord
      ∧ (run_migrations files).1.executed
          = (sortByName files).map MigrationFile.name)
    ∧ ∀ pre f post, sortByName files = pre ++ f :: post →
        (∀ g ∈ pre, goodFile g) →
        (((readTextBytes f.content).isSome = true →
            parseMigrationName f.name = none →
            (run_migrations files).2
                = some (.invalidMigrationFilename f.name)
            ∧ (run_migrations files).1.records = pre.map mkRecord
            ∧ (run_migrations files).1.executed
                = pre.map MigrationFile.name)
        ∧ ((readTextBytes f.content).isSome = true →
            (parseMigrationName f.name).isSome = true → f.execOk = false →
            (run_migrations files).2 = some (.migrationExecFailure f.name)
            ∧ (run_migrations files).1.records = pre.map mkRecord
            ∧ (run_migrations files).1.executed
                = pre.map MigrationFile.name ++ [f.name])) := by
  constructor
  · intro hgood
    have h := runFrom_append_good (sortByName files) ⟨[], []⟩ []
      hgood (by simp) hdist
    rw [List.append_nil] at h
    rw [run_migrations, h]
    exact ⟨rfl, by simp [runMigrationsFrom], by simp [runMigrationsFrom]⟩
  · intro pre f post heq hpre
    rw [heq] at hdist
    have hdistPre := hdist.sublist (List.sublist_append_left pre (f :: post))
    have hrun : runMigrationsFrom ⟨[], []⟩ (sortByName files)
        = runMigrationsFrom
            ⟨pre.map mkRecord, pre.map MigrationFile.name⟩ (f :: post) := by
      rw [heq]
      have := runFrom_append_good pre ⟨[], []⟩ (f :: post) hpre
        (by simp) hdistPre
      simpa using this
    constructor
    · intro hrt hp
      have happ := @applyMigration_badname
        ⟨pre.map mkRecord, pre.map MigrationFile.name⟩ f hrt hp
      have hres : run_migrations files
          = (⟨pre.map mkRecord, pre.map MigrationFile.name⟩,
             some (.invalidMigrationFilename f.name)) := by
        rw [run_migrations, hrun, runFrom_cons_err happ]
      rw [hres]
      exact ⟨rfl, rfl, rfl⟩
    · intro hrt hp hex
      have happ := @applyMigration_execfail
        ⟨pre.map mkRecord, pre.map MigrationFile.name⟩ f hrt hp hex
      have hres : run_migrations files
          = (⟨pre.map mkRecord, pre.map MigrationFile.name ++ [f.name]⟩,
             some (.migrationExecFailure f.name)) := by
        rw [run_migrations, hrun, runFrom_cons_err happ]
      rw [hres]
      exact ⟨rfl, rfl, rfl⟩

/-- Claim C5, witness: a run with one faultless file followed by one
whose script fails. -/
theorem run_migrations_fault_handling_witness :
    ((sortByName [⟨"1_a.sql", [], true⟩, ⟨"2_b.sql", [], false⟩]).Pairwise
      (fun a b => (mkRecord a).version ≠ (mkRecord b).version))
    ∧ (((∀ g ∈ sortByName [⟨"1_a.sql", [], true⟩, ⟨"2_b.sql", [], false⟩],
          goodFile g) →
        (run_migrations [⟨"1_a.sql", [], true⟩, ⟨"2_b.sql", [], false⟩]).2
            = none
        ∧ (run_migrations
            [⟨"1_a.sql", [], true⟩, ⟨"2_b.sql", [], false⟩]).1.records
            = (sortByName
                [⟨"1_a.sql", [], true⟩, ⟨"2_b.sql", [], false⟩]).map mkRecord
        ∧ (run_migrations
            [⟨"1_a.sql", [], true⟩, ⟨"2_b.sql", [], false⟩]).1.executed
            = (sortByName
                [⟨"1_a.sql", [], true⟩, ⟨"2_b.sql", [], false⟩]).map
                  MigrationFile.name)
      ∧ ∀ pre f post,
          sortByName [⟨"1_a.sql", [], true⟩, ⟨"2_b.sql", [], false⟩]
            = pre ++ f :: post →
          (∀ g ∈ pre, goodFile g) →
          (((readTextBytes f.content).isSome = true →
              parseMigrationName f.name = none →
              (run_migrations
                [⟨"1_a.sql", [], true⟩, ⟨"2_b.sql", [], false⟩]).2
                  = some (.invalidMigrationFilename f.name)
              ∧ (run_migrations
                  [⟨"1_a.sql", [], true⟩, ⟨"2_b.sql", [], false⟩]).1.records
                  = pre.map mkRecord
              ∧ (run_migrations
                  [⟨"1_a.sql", [], true⟩, ⟨"2_b.sql", [], false⟩]).1.executed
                  = pre.map MigrationFile.name)
          ∧ ((readTextBytes f.content).isSome = true →
              (parseMigrationName f.name).isSome = true → f.execOk = false →
              (run_migrations
                [⟨"1_a.sql", [], true⟩, ⟨"2_b.sql", [], false⟩]).2
                  = some (.migrationExecFailure f.name)
              ∧ (run_migrations
                  [⟨"1_a.sql", [], true⟩, ⟨"2_b.sql", [], false⟩]).1.records
                  = pre.map mkRecord
              ∧ (run_migrations
                  [⟨"1_a.sql", [], true⟩, ⟨"2_b.sql", [], false⟩]).1.executed
                  = pre.map MigrationFile.name ++ [f.name]))) :=
  ⟨by decide,
   run_migrations_fault_handling
     [⟨"1_a.sql", [], true⟩, ⟨"2_b.sql", [], false⟩] (by decide)⟩

/-! ## Claim C4 -/
/-- Claim C4 (corrected): the stored checksum is the SHA-384 digest of
`read_text().encode()`, i.e. of the UTF-8 re-encoding of the decoded and
universal-newline-translated text, not of the raw bytes in general.  The
two agree for every file of ASCII bytes with no carriage return — which
covers this repository's migrations — as proved here; for a CRLF file
they differ (see the counterexample), and a non-UTF-8 file aborts the
run before a record is written. -/
theorem run_migrations_checksum_ascii (files : List MigrationFile)
    (hdist : (sortByName files).Pairwise
      (fun a b => (mkRecord a).version ≠ (mkRecord b).version))
    (hgood : ∀ g ∈ sortByName files, goodFile g)
    (hascii : ∀ f ∈ files, (∀ b ∈ f.content, b ≤ 127) ∧ 13 ∉ f.content) :
    (run_migrations files).1.records.map MigrationRecord.checksum
      = (sortByName files).map (fun f => sha384 f.content) := by
  have h := runFrom_append_good (sortByName files) ⟨[], []⟩ []
    hgood (by simp) hdist
  rw [List.append_nil] at h
  rw [run_migrations, h]
  simp only [runMigrationsFrom, List.nil_append, List.map_map]
  apply List.map_congr_left
  intro f hf
  obtain ⟨ha, hcr⟩ := hascii f (mem_sortByName.mp hf)
  simp [Function.comp, mkRecord, readTextBytes_ascii_no_cr ha hcr]

/-- Claim C4, counterexample: a migration file whose bytes are
`"a\r\nb"` is applied successfully, but its stored checksum is the
digest of the translated text `"a\nb"`, not of the exact bytes on
disk. -/
theorem run_migrations_checksum_crlf_cx :
    ((run_migrations [⟨"1_a.sql", [97, 13, 10, 98], true⟩]).1.records.map
        MigrationRecord.checksum = [sha384 [97, 10, 98]])
    ∧ ((run_migrations [⟨"1_a.sql", [97, 13, 10, 98], true⟩]).1.records.map
        MigrationRecord.checksum ≠ [sha384 [97, 13, 10, 98]])
    ∧ (run_migrations [⟨"1_a.sql", [97, 13, 10, 98], true⟩]).2 = none :=
  ⟨by decide, by decide, by decide⟩

/-- Claim C4, witness: a single ASCII, carriage-return-free migration
file, for which the stored checksum is the digest of the exact bytes. -/
theorem run_migrations_checksum_ascii_witness :
    ((sortByName [⟨"1_a.sql", [97, 10, 98], true⟩]).Pairwise
      (fun a b => (mkRecord a).version ≠ (mkRecord b).version))
    ∧ (∀ g ∈ sortByName [⟨"1_a.sql", [97, 10, 98], true⟩], goodFile g)
    ∧ (∀ f ∈ [(⟨"1_a.sql", [97, 10, 98], true⟩ : MigrationFile)],
        (∀ b ∈ f.content, b ≤ 127) ∧ 13 ∉ f.content)
    ∧ (run_migrations [⟨"1_a.sql", [97, 10, 98], true⟩]).1.records.map
        MigrationRecord.checksum
      = (sortByName [⟨"1_a.sql", [97, 10, 98], true⟩]).map
          (fun f => sha384 f.content) :=
  ⟨by decide, by decide, by decide,
   run_migrations_checksum_ascii [⟨"1_a.sql", [97, 10, 98], true⟩]
     (by decide) (by decide) (by decide)⟩

/-! ## Claim C2 -/
theorem versionShape_decomp {L : Nat} {f : MigrationFile}
    (h : versionShape L f) :
    ∃ tail, f.name.data
      = f.name.data.takeWhile isDigitChar ++ '_' :: tail := by
  obtain ⟨_, _, h3⟩ := h
  obtain ⟨tail, htail⟩ := List.head?_eq_some_iff.mp h3
  exact ⟨tail, by rw [← htail, List.takeWhile_append_dropWhile]⟩

theorem parse_version_eq {n : String} {v : Nat} {d : String}
    (h : parseMigrationName n = some (v, d)) :
    v = digitsVal (n.data.takeWhile isDigitChar) := by
  simp only [parseMigrationName] at h
  split at h
  · exact absurd h (by simp)
  · split at h
    · split at h
      · simp only [Option.some.injEq, Prod.mk.injEq] at h
        exact h.1.symm
      · exact absurd h (by simp)
    · exact absurd h (by simp)

/-- Equal digit-width filenames in name order are in version order. -/
theorem version_le_of_fileLe {L : Nat} {f g : MigrationFile}
    (hf : versionShape L f) (hg : versionShape L g) (hle : fileLe f g) :
    digitsVal (f.name.data.takeWhile isDigitChar)
      ≤ digitsVal (g.name.data.takeWhile isDigitChar) := by
  by_contra hlt
  push_neg at hlt
  obtain ⟨tf, hfd⟩ := versionShape_decomp hf
  obtain ⟨tg, hgd⟩ := versionShape_decomp hg
  have hlex := @lexLt_of_digitsVal_lt
    (g.name.data.takeWhile isDigitChar) (f.name.data.takeWhile isDigitChar)
    ('_' :: tg) ('_' :: tf)
    (fun c hc => List.mem_takeWhile_imp hc)
    (fun c hc => List.mem_takeWhile_imp hc)
    (hg.1.trans hf.1.symm) hlt
  rw [← hgd, ← hfd] at hlex
  rw [fileLe_iff] at hle
  simp [hle] at hlex

/-- Along the run, recorded versions only grow, provided every filename
carries the same digit width. -/
theorem runFrom_version_sorted {L : Nat} :
    ∀ (fs : List MigrationFile) (st : MigState),
    (∀ f ∈ fs, versionShape L f) →
    fs.Pairwise fileLe →
    ((st.records.map MigrationRecord.version).Pairwise (· ≤ ·)) →
    (∀ r ∈ st.records, ∀ f ∈ fs,
      r.version ≤ digitsVal (f.name.data.takeWhile isDigitChar)) →
    (((runMigrationsFrom st fs).1.records.map
        MigrationRecord.version).Pairwise (· ≤ ·)) := by
  intro fs
  induction fs with
  | nil => intro st _ _ hp _; exact hp
  | cons f fs ih =>
    intro st hshape hlex hp hcross
    rcases happ : applyMigration st f with ⟨st', e⟩
    have hrc := applyMigration_records_cases st f
    rw [happ] at hrc
    have hver : ∀ hps : (parseMigrationName f.name).isSome = true,
        (mkRecord f).version
          = digitsVal (f.name.data.takeWhile isDigitChar) := by
      intro hps
      obtain ⟨⟨v, d⟩, hvd⟩ := Option.isSome_iff_exists.mp hps
      have hv := parse_version_eq hvd
      simp [mkRecord, hvd, ← hv]
    have hp' : (st'.records.map MigrationRecord.version).Pairwise (· ≤ ·) := by
      rcases hrc with hc | ⟨hc, hps⟩ <;> rw [hc]
      · exact hp
      · rw [List.map_append, List.pairwise_append]
        refine ⟨hp, by simp, ?_⟩
        intro a ha b hb
        simp only [List.map_cons, List.map_nil, List.mem_singleton] at hb
        subst hb
        obtain ⟨r, hr, rfl⟩ := List.mem_map.mp ha
        rw [hver hps]
        exact hcross r hr f (by simp)
    have hcross' : ∀ r ∈ st'.records, ∀ g ∈ fs,
        r.version ≤ digitsVal (g.name.data.takeWhile isDigitChar) := by
      rcases hrc with hc | ⟨hc, hps⟩ <;> rw [hc]
      · intro r hr g hg; exact hcross r hr g (by simp [hg])
      · intro r hr g hg
        rcases List.mem_append.mp hr with hr | hr
        · exact hcross r hr g (by simp [hg])
        · have : r = mkRecord f := by simpa using hr
          subst this
          rw [hver hps]
          exact version_le_of_fileLe (hshape f (by simp))
            (hshape g (by simp [hg]))
            ((List.pairwise_cons.mp hlex).1 g hg)
    cases e with
    | none =>
      rw [runFrom_cons_ok happ]
      exact ih st' (fun g hg => hshape g (by simp [hg]))
        (List.pairwise_cons.mp hlex).2 hp' hcross'
    | some err =>
      rw [runFrom_cons_err happ]
      exact hp'

/-- Claim C2 (corrected): the runner sorts and applies the files in raw
lexical filename order (`sorted` on the directory listing), not by the
parsed integer version.  When every version numeral has the same digit
width — as for this repository's timestamp-style versions — the recorded
versions do come out in ascending numeric order, proved here; with mixed
digit widths the order is broken (see the counterexample: version 10 is
applied before version 9). -/
theorem run_migrations_version_order (files : List MigrationFile)
    (L : Nat) (hshape : ∀ f ∈ files, versionShape L f) :
    (((run_migrations files).1.records.map
        MigrationRecord.version).Pairwise (· ≤ ·)) :=
  runFrom_version_sorted (sortByName files) ⟨[], []⟩
    (fun f hf => hshape f (mem_sortByName.mp hf))
    (sortByName_sorted files) (by simp) (by simp)

/-- Claim C2, counterexample: with files `10_b.sql` and `9_a.sql` the
runner records version 10 first and version 9 second — lexical filename
order, not ascending numeric version order. -/
theorem run_migrations_version_order_cx :
    ((run_migrations [⟨"10_b.sql", [], true⟩, ⟨"9_a.sql", [], true⟩]).1.records.map
        MigrationRecord.version = [10, 9])
    ∧ ¬ (((run_migrations
          [⟨"10_b.sql", [], true⟩, ⟨"9_a.sql", [], true⟩]).1.records.map
           MigrationRecord.version).Pairwise (· ≤ ·)) :=
  ⟨by decide, by decide⟩

/-- Claim C2, witness: two equal-digit-width filenames, whose recorded
versions the theorem proves ascending. -/
theorem run_migrations_version_order_witness :
    (∀ f ∈ [(⟨"2_b.sql", [], true⟩ : MigrationFile),
            (⟨"1_a.sql", [], true⟩ : MigrationFile)], versionShape 1 f)
    ∧ (((run_migrations [(⟨"2_b.sql", [], true⟩ : MigrationFile),
          (⟨"1_a.sql", [], true⟩ : MigrationFile)]).1.records.map
            MigrationRecord.version).Pairwise (· ≤ ·)) :=
  ⟨by decide,
   run_migrations_version_order
     [⟨"2_b.sql", [], true⟩, ⟨"1_a.sql", [], true⟩] 1 (by decide)⟩

/-! ## Helper lemmas: article generation, batching, FTS -/
theorem pyRandint_mem (lo hi r : Nat) (h : lo ≤ hi) :
    lo ≤ pyRandint lo hi r ∧ pyRandint lo hi r ≤ hi := by
  unfold pyRandint
  have := Nat.mod_lt r (show 0 < hi - lo + 1 by omega)
  omega

theorem chunkListF_flatten {α : Type} (k : Nat) :
    ∀ (fuel : Nat) (l : List α), (chunkListF k fuel l).flatten = l := by
  intro fuel
  induction fuel with
  | zero => intro l; cases l <;> simp [chunkListF]
  | succ fuel ih =>
    intro l
    cases l with
    | nil => simp [chunkListF]
    | cons a t =>
      simp only [chunkListF, List.flatten_cons, ih]
      exact List.take_append_drop k (a :: t)

theorem chunkListF_dropLast_full {α : Type} {k : Nat} (hk : 0 < k) :
    ∀ (fuel : Nat) (l : List α), l.length ≤ fuel →
    ∀ b ∈ (chunkListF k fuel l).dropLast, b.length = k := by
  intro fuel
  induction fuel with
  | zero =>
    intro l hl b hb
    have : l = [] := List.length_eq_zero.mp (by omega)
    subst this
    simp [chunkListF] at hb
  | succ fuel ih =>
    intro l hl b hb
    cases l with
    | nil => simp [chunkListF] at hb
    | cons a t =>
      simp only [chunkListF] at hb
      cases hrest : chunkListF k fuel ((a :: t).drop k) with
      | nil => rw [hrest] at hb; simp at hb
      | cons c cs =>
        rw [hrest, List.dropLast_cons₂] at hb
        rcases List.mem_cons.mp hb with rfl | hb
        · have hne : (a :: t).drop k ≠ [] := by
            intro hnil
            rw [hnil] at hrest
            simp [chunkListF] at hrest
          have hlen : k < (a :: t).length := by
            by_contra hge
            exact hne (List.drop_eq_nil_iff.mpr (by omega))
          rw [List.length_take]
          omega
        · rw [← hrest] at hb
          refine ih ((a :: t).drop k) ?_ b hb
          have hlen1 : (a :: t).length = t.length + 1 := by simp
          rw [List.length_drop, hlen1]
          simp at hl
          omega

theorem foldlBatches_articles :
    ∀ (bs : List (List ArticleRow)) (db : DB),
    (bs.foldl insertArticleBatch db).articles = db.articles ++ bs.flatten := by
  intro bs
  induction bs with
  | nil => intro db; simp
  | cons b bs ih =>
    intro db
    rw [List.foldl_cons, ih]
    simp [insertArticleBatch]

theorem foldlBatches_fts :
    ∀ (bs : List (List ArticleRow)) (db : DB), db.ftsTriggers = false →
    (bs.foldl insertArticleBatch db).articles_fts = db.articles_fts
    ∧ (bs.foldl insertArticleBatch db).ftsTriggers = false := by
  intro bs
  induction bs with
  | nil => intro db h; exact ⟨rfl, h⟩
  | cons b bs ih =>
    intro db h
    rw [List.foldl_cons]
    have hstep : (insertArticleBatch db b).articles_fts = db.articles_fts
        ∧ (insertArticleBatch db b).ftsTriggers = false := by
      simp [insertArticleBatch, h]
    obtain ⟨h1, h2⟩ := ih (insertArticleBatch db b) hstep.2
    exact ⟨h1.trans hstep.1, h2⟩

theorem articleRows_length (feedIds : List Nat) (now : Int)
    (rand : Nat → ArticleRand) (s n : Nat) :
    (articleRows feedIds now rand s n).length = n := by
  simp [articleRows]

theorem articleRow_id (feedIds : List Nat) (now : Int) (i : Nat)
    (ar : ArticleRand) (id0 : Nat) :
    (articleRow feedIds now i ar id0).id = id0 := rfl

theorem articleRows_ids (feedIds : List Nat) (now : Int)
    (rand : Nat → ArticleRand) (s n : Nat) :
    (articleRows feedIds now rand s n).map ArticleRow.id
      = (List.range n).map (fun i => s + i) := by
  simp only [articleRows, List.map_map]
  rfl

theorem articleRows_ids_nodup (feedIds : List Nat) (now : Int)
    (rand : Nat → ArticleRand) (s n : Nat) :
    ((articleRows feedIds now rand s n).map ArticleRow.id).Nodup := by
  rw [articleRows_ids]
  exact (List.nodup_range n).map (fun a b h => by omega)

theorem rebuildFts_articles (db : DB) :
    (rebuildFts db).1.articles = db.articles := by
  simp only [rebuildFts]
  split <;> rfl

theorem create_articles_eq (K : Nat) (feedIds : List Nat) (now : Int)
    (rand : Nat → ArticleRand) (db : DB) (h : ¬(K ≠ 0 ∧ feedIds = [])) :
    create_articles K feedIds now rand db
      = rebuildFts ((chunkListF 1000
          (articleRows feedIds now rand (db.articles.length + 1) K).length
          (articleRows feedIds now rand (db.articles.length + 1) K)).foldl
            insertArticleBatch { db with ftsTriggers := false }) := by
  simp only [create_articles]
  rw [if_neg h]

/-! ## Claim C6 -/
/-- Claim C6 (confirmed): given a non-empty feed list, `create_articles`
generates exactly `K` records, flushes them in order as full batches of
the fixed size 1000 (every batch before the last is exactly full), the
final partial batch included, so nothing buffered is lost:
`COUNT(articles)` grows by exactly `K`, and by `NUM_ARTICLES = 100000`
on a full run. -/
theorem create_articles_batching (K : Nat) (feedIds : List Nat) (now : Int)
    (rand : Nat → ArticleRand) (db : DB) (hfeeds : feedIds ≠ []) :
    (articleRows feedIds now rand (db.articles.length + 1) K).length = K
    ∧ (chunkListF 1000
        (articleRows feedIds now rand (db.articles.length + 1) K).length
        (articleRows feedIds now rand (db.articles.length + 1) K)).flatten
      = articleRows feedIds now rand (db.articles.length + 1) K
    ∧ (∀ b ∈ (chunkListF 1000
        (articleRows feedIds now rand (db.articles.length + 1) K).length
        (articleRows feedIds now rand (db.articles.length + 1) K)).dropLast,
        b.length = 1000)
    ∧ (create_articles K feedIds now rand db).1.articles.length
      = db.articles.length + K
    ∧ (create_articles NUM_ARTICLES feedIds now rand db).1.articles.length
      = db.articles.length + NUM_ARTICLES := by
  have hcount : ∀ K' : Nat,
      (create_articles K' feedIds now rand db).1.articles.length
        = db.articles.length + K' := by
    intro K'
    rw [create_articles_eq K' feedIds now rand db (fun hc => hfeeds hc.2),
        rebuildFts_articles, foldlBatches_articles, chunkListF_flatten]
    simp [articleRows_length]
  refine ⟨articleRows_length _ _ _ _ _, chunkListF_flatten _ _ _,
    chunkListF_dropLast_full (by omega) _ _ (Nat.le_refl _),
    hcount K, hcount NUM_ARTICLES⟩

/-- Claim C6, witness: a concrete 3-article run over one feed. -/
theorem create_articles_batching_witness :
    ([1] ≠ ([] : List Nat))
    ∧ ((articleRows [1] 0 (fun _ => ⟨0, 0, (fun _ => 0), 0, 0, (fun _ => 0),
          (fun _ => 0), (fun _ => 0), 0, 0, 0, false, false, 0⟩)
          (freshDB.articles.length + 1) 3).length = 3
      ∧ (chunkListF 1000
          (articleRows [1] 0 (fun _ => ⟨0, 0, (fun _ => 0), 0, 0,
            (fun _ => 0), (fun _ => 0), (fun _ => 0), 0, 0, 0, false, false,
            0⟩) (freshDB.articles.length + 1) 3).length
          (articleRows [1] 0 (fun _ => ⟨0, 0, (fun _ => 0), 0, 0,
            (fun _ => 0), (fun _ => 0), (fun _ => 0), 0, 0, 0, false, false,
            0⟩) (freshDB.articles.length + 1) 3)).flatten
        = articleRows [1] 0 (fun _ => ⟨0, 0, (fun _ => 0), 0, 0,
            (fun _ => 0), (fun _ => 0), (fun _ => 0), 0, 0, 0, false, false,
            0⟩) (freshDB.articles.length + 1) 3
      ∧ (∀ b ∈ (chunkListF 1000
          (articleRows [1] 0 (fun _ => ⟨0, 0, (fun _ => 0), 0, 0,
            (fun _ => 0), (fun _ => 0), (fun _ => 0), 0, 0, 0, false, false,
            0⟩) (freshDB.articles.length + 1) 3).length
          (articleRows [1] 0 (fun _ => ⟨0, 0, (fun _ => 0), 0, 0,
            (fun _ => 0), (fun _ => 0), (fun _ => 0), 0, 0, 0, false, false,
            0⟩) (freshDB.articles.length + 1) 3)).dropLast,
          b.length = 1000)
      ∧ (create_articles 3 [1] 0 (fun _ => ⟨0, 0, (fun _ => 0), 0, 0,
          (fun _ => 0), (fun _ => 0), (fun _ => 0), 0, 0, 0, false, false,
          0⟩) freshDB).1.articles.length = freshDB.articles.length + 3
      ∧ (create_articles NUM_ARTICLES [1] 0 (fun _ => ⟨0, 0, (fun _ => 0),
          0, 0, (fun _ => 0), (fun _ => 0), (fun _ => 0), 0, 0, 0, false,
          false, 0⟩) freshDB).1.articles.length
        = freshDB.articles.length + NUM_ARTICLES) :=
  ⟨by decide,
   create_articles_batching 3 [1] 0 (fun _ => ⟨0, 0, (fun _ => 0), 0, 0,
     (fun _ => 0), (fun _ => 0), (fun _ => 0), 0, 0, 0, false, false, 0⟩)
     freshDB (by decide)⟩

/-! ## Claim C3 -/
theorem mirrorRow_rowid (a : ArticleRow) : (mirrorRow a).rowid = a.id := rfl

/-- Claim C3 (confirmed): on a fresh store, once `create_articles`
returns, `articles_fts` is exactly the field-for-field mirror of the
`articles` table — one entry per article keyed by the same identifier,
with equal title/content/summary/author — the identifiers are pairwise
distinct (the mapping is bijective), and the counts agree. -/
theorem create_articles_fts_bijective (K : Nat) (feedIds : List Nat)
    (now : Int) (rand : Nat → ArticleRand) (db : DB)
    (hfeeds : feedIds ≠ []) (harts : db.articles = [])
    (hfts : db.articles_fts = []) :
    (create_articles K feedIds now rand db).1.articles_fts
      = (create_articles K feedIds now rand db).1.articles.map mirrorRow
    ∧ (create_articles K feedIds now rand db).1.articles_fts.length
      = (create_articles K feedIds now rand db).1.articles.length
    ∧ ((create_articles K feedIds now rand db).1.articles.map
        ArticleRow.id).Nodup
    ∧ (create_articles K feedIds now rand db).2 = none := by
  rw [create_articles_eq K feedIds now rand db (fun hc => hfeeds hc.2)]
  have htrig : ({ db with ftsTriggers := false } : DB).ftsTriggers = false :=
    rfl
  have hart : ((chunkListF 1000
      (articleRows feedIds now rand (db.articles.length + 1) K).length
      (articleRows feedIds now rand (db.articles.length + 1) K)).foldl
        insertArticleBatch { db with ftsTriggers := false }).articles
      = articleRows feedIds now rand (db.articles.length + 1) K := by
    rw [foldlBatches_articles, chunkListF_flatten]
    simp [harts]
  have hftsB := (foldlBatches_fts (chunkListF 1000
      (articleRows feedIds now rand (db.articles.length + 1) K).length
      (articleRows feedIds now rand (db.articles.length + 1) K))
      { db with ftsTriggers := false } htrig).1
  have hftsB' : ((chunkListF 1000
      (articleRows feedIds now rand (db.articles.length + 1) K).length
      (articleRows feedIds now rand (db.articles.length + 1) K)).foldl
        insertArticleBatch { db with ftsTriggers := false }).articles_fts
      = [] := by
    rw [hftsB]
    exact hfts
  have hnd := articleRows_ids_nodup feedIds now rand (db.articles.length + 1) K
  have hnoc : ¬ ftsInsertConflicts
      ((chunkListF 1000
        (articleRows feedIds now rand (db.articles.length + 1) K).length
        (articleRows feedIds now rand (db.articles.length + 1) K)).foldl
          insertArticleBatch { db with ftsTriggers := false }).articles_fts
      (((chunkListF 1000
        (articleRows feedIds now rand (db.articles.length + 1) K).length
        (articleRows feedIds now rand (db.articles.length + 1) K)).foldl
          insertArticleBatch
            { db with ftsTriggers := false }).articles.map mirrorRow) := by
    rw [hart, hftsB']
    intro hc
    rcases hc with ⟨r, _, hr⟩ | hc
    · simp at hr
    · apply hc
      have hmap : ((articleRows feedIds now rand (db.articles.length + 1)
          K).map mirrorRow).map FtsRow.rowid
          = (articleRows feedIds now rand (db.articles.length + 1) K).map
              ArticleRow.id := by
        rw [List.map_map]
        rfl
      rw [hmap]
      exact hnd
  simp only [rebuildFts, if_neg hnoc]
  refine ⟨?_, ?_, ?_, ?_⟩ <;> simp [hftsB', hart, hnd]

/-- Claim C3, witness: a concrete two-article run on a fresh store. -/
theorem create_articles_fts_bijective_witness :
    ([1] ≠ ([] : List Nat)) ∧ freshDB.articles = [] ∧ freshDB.articles_fts = []
    ∧ ((create_articles 2 [1] 0 (fun _ => ⟨0, 0, (fun _ => 0), 0, 0,
          (fun _ => 0), (fun _ => 0), (fun _ => 0), 0, 0, 0, false, false,
          0⟩) freshDB).1.articles_fts
        = (create_articles 2 [1] 0 (fun _ => ⟨0, 0, (fun _ => 0), 0, 0,
            (fun _ => 0), (fun _ => 0), (fun _ => 0), 0, 0, 0, false, false,
            0⟩) freshDB).1.articles.map mirrorRow
      ∧ (create_articles 2 [1] 0 (fun _ => ⟨0, 0, (fun _ => 0), 0, 0,
          (fun _ => 0), (fun _ => 0), (fun _ => 0), 0, 0, 0, false, false,
          0⟩) freshDB).1.articles_fts.length
        = (create_articles 2 [1] 0 (fun _ => ⟨0, 0, (fun _ => 0), 0, 0,
            (fun _ => 0), (fun _ => 0), (fun _ => 0), 0, 0, 0, false, false,
            0⟩) freshDB).1.articles.length
      ∧ ((create_articles 2 [1] 0 (fun _ => ⟨0, 0, (fun _ => 0), 0, 0,
          (fun _ => 0), (fun _ => 0), (fun _ => 0), 0, 0, 0, false, false,
          0⟩) freshDB).1.articles.map ArticleRow.id).Nodup
      ∧ (create_articles 2 [1] 0 (fun _ => ⟨0, 0, (fun _ => 0), 0, 0,
          (fun _ => 0), (fun _ => 0), (fun _ => 0), 0, 0, 0, false, false,
          0⟩) freshDB).2 = none) :=
  ⟨by decide, rfl, rfl,
   create_articles_fts_bijective 2 [1] 0 (fun _ => ⟨0, 0, (fun _ => 0), 0, 0,
     (fun _ => 0), (fun _ => 0), (fun _ => 0), 0, 0, 0, false, false, 0⟩)
     freshDB (by decide) rfl rfl⟩

/-! ## Claim C7 -/
/-- Claim C7 (confirmed): re-invoking the bulk FTS repopulation and
trigger re-creation on a store whose mirror is already populated never
silently corrupts the mirror: with articles present the duplicate-keyed
bulk insert fails with an explicit `IntegrityError` and the mirror is
untouched; with no articles it is a no-op; in both cases `articles_fts`
is unchanged. -/
theorem rebuildFts_reinvoke_safe (db : DB)
    (hpop : db.articles_fts = db.articles.map mirrorRow) :
    (rebuildFts db).1.articles_fts = db.articles_fts
    ∧ (db.articles = [] → (rebuildFts db).2 = none)
    ∧ (db.articles ≠ [] → (rebuildFts db).2 = some .integrityError) := by
  by_cases harts : db.articles = []
  · have hnoc2 : ¬ ftsInsertConflicts db.articles_fts ([] : List FtsRow) := by
      intro hc
      rcases hc with ⟨r, hr, _⟩ | hc
      · simp at hr
      · exact hc (by simp)
    refine ⟨?_, fun _ => ?_, fun h => absurd harts h⟩
    · simp [rebuildFts, harts, hnoc2]
    · simp [rebuildFts, harts, hnoc2]
  · have hcon : ftsInsertConflicts db.articles_fts
        (db.articles.map mirrorRow) := by
      obtain ⟨a, rest, hd⟩ := List.exists_cons_of_ne_nil harts
      left
      refine ⟨mirrorRow a, by simp [hd], ?_⟩
      rw [hpop, hd]
      simp
    refine ⟨?_, fun h => absurd h harts, fun _ => ?_⟩
    · simp [rebuildFts, if_pos hcon]
    · simp [rebuildFts, if_pos hcon]

/-- Claim C7, witness: a store with one article and its already-populated
mirror; rebuilding again errors and leaves the mirror unchanged. -/
theorem rebuildFts_reinvoke_safe_witness :
    (({ freshDB with
        articles := [⟨1, 1, "g", "t", "u", "c", "s", "a", 0, false, false,
          0, 0⟩],
        articles_fts := [⟨1, 1, "t", "c", "s", "a"⟩] } : DB).articles_fts
      = ({ freshDB with
        articles := [⟨1, 1, "g", "t", "u", "c", "s", "a", 0, false, false,
          0, 0⟩],
        articles_fts := [⟨1, 1, "t", "c", "s", "a"⟩] } : DB).articles.map
          mirrorRow)
    ∧ ((rebuildFts { freshDB with
        articles := [⟨1, 1, "g", "t", "u", "c", "s", "a", 0, false, false,
          0, 0⟩],
        articles_fts := [⟨1, 1, "t", "c", "s", "a"⟩] }).1.articles_fts
      = ({ freshDB with
        articles := [⟨1, 1, "g", "t", "u", "c", "s", "a", 0, false, false,
          0, 0⟩],
        articles_fts := [⟨1, 1, "t", "c", "s", "a"⟩] } : DB).articles_fts
      ∧ (({ freshDB with
          articles := [⟨1, 1, "g", "t", "u", "c", "s", "a", 0, false, false,
            0, 0⟩],
          articles_fts := [⟨1, 1, "t", "c", "s", "a"⟩] } : DB).articles = []
          → (rebuildFts { freshDB with
              articles := [⟨1, 1, "g", "t", "u", "c", "s", "a", 0, false,
                false, 0, 0⟩],
              articles_fts := [⟨1, 1, "t", "c", "s", "a"⟩] }).2 = none)
      ∧ (({ freshDB with
          articles := [⟨1, 1, "g", "t", "u", "c", "s", "a", 0, false, false,
            0, 0⟩],
          articles_fts := [⟨1, 1, "t", "c", "s", "a"⟩] } : DB).articles ≠ []
          → (rebuildFts { freshDB with
              articles := [⟨1, 1, "g", "t", "u", "c", "s", "a", 0, false,
                false, 0, 0⟩],
              articles_fts := [⟨1, 1, "t", "c", "s", "a"⟩] }).2
            = some .integrityError)) :=
  ⟨by decide,
   rebuildFts_reinvoke_safe { freshDB with
     articles := [⟨1, 1, "g", "t", "u", "c", "s", "a", 0, false, false,
       0, 0⟩],
     articles_fts := [⟨1, 1, "t", "c", "s", "a"⟩] } (by decide)⟩

/-! ## Claim C8 -/
/-- Claim C8 (confirmed): every generated article has
`created_at = published_at + m` minutes for some random `m` with
`1 ≤ m ≤ 60`, so `created_at ≥ published_at` holds for every article row
after a run against a fresh store. -/
theorem create_articles_created_ge_published (K : Nat) (feedIds : List Nat)
    (now : Int) (rand : Nat → ArticleRand) (db : DB)
    (harts : db.articles = []) :
    (∀ a ∈ articleRows feedIds now rand (db.articles.length + 1) K,
      ∃ m : Nat, 1 ≤ m ∧ m ≤ 60
        ∧ a.created_at = a.published_at + 60 * (m : Int))
    ∧ ∀ a ∈ (create_articles K feedIds now rand db).1.articles,
        a.published_at ≤ a.created_at := by
  have hrow : ∀ (s : Nat), ∀ a ∈ articleRows feedIds now rand s K,
      ∃ m : Nat, 1 ≤ m ∧ m ≤ 60
        ∧ a.created_at = a.published_at + 60 * (m : Int) := by
    intro s a ha
    simp only [articleRows, List.mem_map, List.mem_range] at ha
    obtain ⟨i, _, rfl⟩ := ha
    obtain ⟨h1, h2⟩ := pyRandint_mem 1 60 (rand i).offsetR (by omega)
    exact ⟨pyRandint 1 60 (rand i).offsetR, h1, h2, rfl⟩
  refine ⟨hrow _, ?_⟩
  intro a ha
  by_cases hc : K ≠ 0 ∧ feedIds = []
  · rw [create_articles, if_pos hc] at ha
    simp only at ha
    rw [show ({ db with ftsTriggers := false } : DB).articles = db.articles
      from rfl, harts] at ha
    simp at ha
  · rw [create_articles_eq K feedIds now rand db hc, rebuildFts_articles,
      foldlBatches_articles, chunkListF_flatten] at ha
    rcases List.mem_append.mp ha with ha | ha
    · rw [show ({ db with ftsTriggers := false } : DB).articles = db.articles
        from rfl, harts] at ha
      simp at ha
    · obtain ⟨m, _, _, hm⟩ := hrow _ a ha
      rw [hm]
      omega

/-- Claim C8, witness: a one-article run on a fresh store. -/
theorem create_articles_created_ge_published_witness :
    freshDB.articles = []
    ∧ ((∀ a ∈ articleRows [1] 0 (fun _ => ⟨0, 0, (fun _ => 0), 0, 0,
          (fun _ => 0), (fun _ => 0), (fun _ => 0), 0, 0, 0, false, false,
          0⟩) (freshDB.articles.length + 1) 1,
        ∃ m : Nat, 1 ≤ m ∧ m ≤ 60
          ∧ a.created_at = a.published_at + 60 * (m : Int))
      ∧ ∀ a ∈ (create_articles 1 [1] 0 (fun _ => ⟨0, 0, (fun _ => 0), 0, 0,
          (fun _ => 0), (fun _ => 0), (fun _ => 0), 0, 0, 0, false, false,
          0⟩) freshDB).1.articles,
          a.published_at ≤ a.created_at) :=
  ⟨rfl,
   create_articles_created_ge_published 1 [1] 0 (fun _ => ⟨0, 0,
     (fun _ => 0), 0, 0, (fun _ => 0), (fun _ => 0), (fun _ => 0), 0, 0, 0,
     false, false, 0⟩) freshDB rfl⟩

/-! ## Helper lemmas: tag sampling and feed-tag insertion -/
theorem sampleDistinct_subset :
    ∀ (k : Nat) (l : List Nat) (r : Nat → Nat),
    ∀ x ∈ sampleDistinct k l r, x ∈ l := by
  intro k
  induction k with
  | zero => intro l r x hx; simp [sampleDistinct] at hx
  | succ k ih =>
    intro l r x hx
    cases l with
    | nil => simp [sampleDistinct] at hx
    | cons a t =>
      simp only [sampleDistinct] at hx
      rcases List.mem_cons.mp hx with rfl | hx
      · have hi : r 0 % (a :: t).length < (a :: t).length :=
          Nat.mod_lt _ (by simp)
        rw [List.getD_eq_getElem _ _ hi]
        exact List.getElem_mem hi
      · exact (List.eraseIdx_sublist (a :: t)
          (r 0 % (a :: t).length)).subset (ih _ _ x hx)

theorem sampleDistinct_length :
    ∀ (k : Nat) (l : List Nat) (r : Nat → Nat),
    (sampleDistinct k l r).length = min k l.length := by
  intro k
  induction k with
  | zero => intro l r; simp [sampleDistinct]
  | succ k ih =>
    intro l r
    cases l with
    | nil => simp [sampleDistinct]
    | cons a t =>
      have hi : r 0 % (a :: t).length < (a :: t).length :=
        Nat.mod_lt _ (by simp)
      simp only [sampleDistinct, List.length_cons, ih]
      rw [List.length_eraseIdx]
      simp only [List.length_cons]
      have hi' : r 0 % (t.length + 1) < t.length + 1 :=
        Nat.mod_lt _ (by omega)
      simp only [if_pos hi']
      omega

theorem getD_not_mem_eraseIdx {l : List Nat} (hnd : l.Nodup) {i : Nat}
    (hi : i < l.length) : l.getD i 0 ∉ l.eraseIdx i := by
  rw [List.getD_eq_getElem _ _ hi]
  intro hmem
  obtain ⟨j, hj, hji, hjx⟩ := List.mem_eraseIdx_iff_getElem.mp hmem
  exact hji ((List.Nodup.getElem_inj_iff hnd).mp hjx)

theorem sampleDistinct_nodup :
    ∀ (k : Nat) (l : List Nat) (r : Nat → Nat),
    l.Nodup → (sampleDistinct k l r).Nodup := by
  intro k
  induction k with
  | zero => intro l r _; simp [sampleDistinct]
  | succ k ih =>
    intro l r hnd
    cases l with
    | nil => simp [sampleDistinct]
    | cons a t =>
      have hi : r 0 % (a :: t).length < (a :: t).length :=
        Nat.mod_lt _ (by simp)
      simp only [sampleDistinct]
      rw [List.nodup_cons]
      refine ⟨?_, ih _ _ (((a :: t).eraseIdx_sublist _).nodup hnd)⟩
      intro hmem
      exact getD_not_mem_eraseIdx hnd hi (sampleDistinct_subset _ _ _ _ hmem)

theorem feedTagSelection_subset (tagIds : List Nat) (fr : FeedRand) :
    ∀ t ∈ feedTagSelection tagIds fr, t ∈ tagIds := by
  intro t ht
  simp only [feedTagSelection] at ht
  split at ht
  · exact sampleDistinct_subset _ _ _ t ht
  · simp at ht

theorem feedTagSelection_le_five (tagIds : List Nat) (fr : FeedRand) :
    (feedTagSelection tagIds fr).length ≤ 5 := by
  simp only [feedTagSelection]
  split
  · rw [sampleDistinct_length]
    have := (pyRandint_mem 0 5 fr.numTagsR (by omega)).2
    omega
  · simp

theorem feedTagSelection_nodup {tagIds : List Nat} (fr : FeedRand)
    (hnd : tagIds.Nodup) : (feedTagSelection tagIds fr).Nodup := by
  simp only [feedTagSelection]
  split
  · exact sampleDistinct_nodup _ _ _ hnd
  · simp

theorem insertOrIgnoreFeedTag_nodup {t : List (Nat × Nat)} {p : Nat × Nat}
    (h : t.Nodup) : (insertOrIgnoreFeedTag t p).Nodup := by
  by_cases hp : p ∈ t
  · rw [insertOrIgnoreFeedTag, if_pos hp]; exact h
  · rw [insertOrIgnoreFeedTag, if_neg hp]
    simp [List.nodup_append, h, hp]

theorem insertOrIgnoreFeedTag_mem {t : List (Nat × Nat)} {p x : Nat × Nat}
    (hx : x ∈ insertOrIgnoreFeedTag t p) : x ∈ t ∨ x = p := by
  by_cases hp : p ∈ t
  · rw [insertOrIgnoreFeedTag, if_pos hp] at hx; exact Or.inl hx
  · rw [insertOrIgnoreFeedTag, if_neg hp] at hx
    simpa using hx

theorem insertOrIgnoreFeedTag_dup {t : List (Nat × Nat)} {p : Nat × Nat}
    (h : p ∈ t) : insertOrIgnoreFeedTag t p = t := by
  rw [insertOrIgnoreFeedTag, if_pos h]

theorem foldl_insertTags_nodup (fid : Nat) :
    ∀ (sel : List Nat) (t : List (Nat × Nat)), t.Nodup →
    (sel.foldl (fun t tag => insertOrIgnoreFeedTag t (fid, tag)) t).Nodup := by
  intro sel
  induction sel with
  | nil => intro t h; exact h
  | cons s sel ih =>
    intro t h
    exact ih _ (insertOrIgnoreFeedTag_nodup h)

theorem foldl_insertTags_mem (fid : Nat) :
    ∀ (sel : List Nat) (t : List (Nat × Nat)) (x : Nat × Nat),
    x ∈ sel.foldl (fun t tag => insertOrIgnoreFeedTag t (fid, tag)) t →
    x ∈ t ∨ ∃ tag ∈ sel, x = (fid, tag) := by
  intro sel
  induction sel with
  | nil => intro t x hx; exact Or.inl hx
  | cons s sel ih =>
    intro t x hx
    rcases ih _ x hx with hx | ⟨tag, htag, rfl⟩
    · rcases insertOrIgnoreFeedTag_mem hx with hx | rfl
      · exact Or.inl hx
      · exact Or.inr ⟨s, by simp, rfl⟩
    · exact Or.inr ⟨tag, by simp [htag], rfl⟩

/-- Loop invariant of `create_feeds`: the association table stays
duplicate-free and every pair points at an inserted feed and a given tag
id; the tags table is untouched. -/
theorem createFeedsLoop_invariants (tagIds : List Nat) (now : Int)
    (rand : Nat → FeedRand) :
    ∀ (n i : Nat) (db : DB),
    db.feed_tags.Nodup →
    (∀ p ∈ db.feed_tags, p.1 ∈ db.feeds.map FeedRow.id ∧ p.2 ∈ tagIds) →
    ((createFeedsLoop tagIds now rand i n db).1.feed_tags.Nodup
    ∧ (∀ p ∈ (createFeedsLoop tagIds now rand i n db).1.feed_tags,
        p.1 ∈ (createFeedsLoop tagIds now rand i n db).1.feeds.map FeedRow.id
        ∧ p.2 ∈ tagIds)
    ∧ (createFeedsLoop tagIds now rand i n db).1.tags = db.tags) := by
  intro n
  induction n with
  | zero =>
    intro i db h1 h2
    exact ⟨h1, h2, rfl⟩
  | succ n ih =>
    intro i db h1 h2
    simp only [createFeedsLoop]
    refine ih (i + 1) _ ?_ ?_
    · exact foldl_insertTags_nodup _ _ _ h1
    · intro p hp
      rcases foldl_insertTags_mem _ _ _ p hp with hp | ⟨tag, htag, rfl⟩
      · obtain ⟨hp1, hp2⟩ := h2 p hp
        refine ⟨?_, hp2⟩
        simp only [List.map_append, List.mem_append]
        exact Or.inl hp1
      · refine ⟨?_, feedTagSelection_subset tagIds _ tag htag⟩
        simp

/-! ## Claim C9 -/
/-- Claim C9 (confirmed): each feed samples 0-5 distinct tags without
replacement from the given tag-id list and inserts one association per
sampled tag with `INSERT OR IGNORE`; afterwards every `feed_tags` row
points at an existing feed id and one of the given (existing) tag ids,
no `(feed_id, tag_id)` pair repeats, and a duplicate-pair insert leaves
the table unchanged instead of aborting. -/
theorem create_feeds_assoc_invariants (tagIds : List Nat) (now : Int)
    (rand : Nat → FeedRand) (db : DB)
    (hnd : tagIds.Nodup) (hft : db.feed_tags = []) :
    (create_feeds tagIds now rand db).1.feed_tags.Nodup
    ∧ (∀ p ∈ (create_feeds tagIds now rand db).1.feed_tags,
        p.1 ∈ (create_feeds tagIds now rand db).1.feeds.map FeedRow.id
        ∧ p.2 ∈ tagIds)
    ∧ (∀ fr : FeedRand,
        (feedTagSelection tagIds fr).Nodup
        ∧ (feedTagSelection tagIds fr).length ≤ 5
        ∧ ∀ t ∈ feedTagSelection tagIds fr, t ∈ tagIds)
    ∧ (∀ (table : List (Nat × Nat)) (p : Nat × Nat), p ∈ table →
        insertOrIgnoreFeedTag table p = table)
    ∧ ((∀ t ∈ tagIds, t ∈ db.tags.map TagRow.id) →
        ∀ p ∈ (create_feeds tagIds now rand db).1.feed_tags,
          p.2 ∈ (create_feeds tagIds now rand db).1.tags.map TagRow.id) := by
  have hbase1 : db.feed_tags.Nodup := by rw [hft]; simp
  have hbase2 : ∀ p ∈ db.feed_tags,
      p.1 ∈ db.feeds.map FeedRow.id ∧ p.2 ∈ tagIds := by
    rw [hft]; simp
  obtain ⟨ha, hb, hc⟩ := createFeedsLoop_invariants tagIds now rand
    NUM_FEEDS 0 db hbase1 hbase2
  refine ⟨ha, hb, ?_, ?_, ?_⟩
  · intro fr
    exact ⟨feedTagSelection_nodup fr hnd, feedTagSelection_le_five tagIds fr,
      feedTagSelection_subset tagIds fr⟩
  · intro table p hp
    exact insertOrIgnoreFeedTag_dup hp
  · intro htags p hp
    rw [show (create_feeds tagIds now rand db).1.tags = db.tags from hc]
    exact htags p.2 (hb p hp).2

/-- Claim C9, witness: a run over two distinct tag ids on a fresh
store. -/
theorem create_feeds_assoc_invariants_witness :
    ([1, 2] : List Nat).Nodup ∧ freshDB.feed_tags = []
    ∧ ((create_feeds [1, 2] 0 (fun i => ⟨(fun _ => i), (fun _ => 0), 0, 0,
          0, 5, (fun n => n + i)⟩) freshDB).1.feed_tags.Nodup
      ∧ (∀ p ∈ (create_feeds [1, 2] 0 (fun i => ⟨(fun _ => i), (fun _ => 0),
            0, 0, 0, 5, (fun n => n + i)⟩) freshDB).1.feed_tags,
          p.1 ∈ (create_feeds [1, 2] 0 (fun i => ⟨(fun _ => i),
            (fun _ => 0), 0, 0, 0, 5, (fun n => n + i)⟩)
              freshDB).1.feeds.map FeedRow.id
          ∧ p.2 ∈ ([1, 2] : List Nat))
      ∧ (∀ fr : FeedRand,
          (feedTagSelection [1, 2] fr).Nodup
          ∧ (feedTagSelection [1, 2] fr).length ≤ 5
          ∧ ∀ t ∈ feedTagSelection [1, 2] fr, t ∈ ([1, 2] : List Nat))
      ∧ (∀ (table : List (Nat × Nat)) (p : Nat × Nat), p ∈ table →
          insertOrIgnoreFeedTag table p = table)
      ∧ ((∀ t ∈ ([1, 2] : List Nat), t ∈ freshDB.tags.map TagRow.id) →
          ∀ p ∈ (create_feeds [1, 2] 0 (fun i => ⟨(fun _ => i),
            (fun _ => 0), 0, 0, 0, 5, (fun n => n + i)⟩)
              freshDB).1.feed_tags,
            p.2 ∈ (create_feeds [1, 2] 0 (fun i => ⟨(fun _ => i),
              (fun _ => 0), 0, 0, 0, 5, (fun n => n + i)⟩)
                freshDB).1.tags.map TagRow.id)) :=
  ⟨by decide, rfl,
   create_feeds_assoc_invariants [1, 2] 0 (fun i => ⟨(fun _ => i),
     (fun _ => 0), 0, 0, 0, 5, (fun n => n + i)⟩) freshDB (by decide) rfl⟩

end StressTest
